import Mathlib

/-!
Shallow embedding of the form-state controller in `src/class.ts` together with
its utilities (`src/utils.ts`: `everyTruthy`, `shallowEqual`).

Modelling conventions:

* JavaScript runtime values stored in the form are modelled by `JSValue`;
  `jsObj id` stands for an object reference, so that `Object.is` becomes
  decidable equality on `JSValue` (reference identity for objects, value
  identity for primitives).
* JavaScript `Map`s are modelled by association lists in insertion order
  (`mapGet` / `mapSet` / `mapRemove` reproduce `Map.get` / `Map.set` /
  `Map.delete` semantics).
* `undefined`/`null`-able record fields become `Option`s.
* Sparse message arrays (`rulesMessages`, where `delete arr[i]` leaves a hole
  and assignment past the end extends the array) are `List (Option Message)`.
* The change-notification callbacks (`onValueChange`, `onMessagesChange`,
  `onErrorChange`, `onWarningChange`) are modelled by an explicit `Event`
  trace: an `Event` appears in the trace exactly when the source would invoke
  the corresponding callback.
-/

namespace FormCtrlV

/-- JavaScript values as stored in the form's value map.  `jsObj id` is an
object reference; decidable equality on `JSValue` then coincides with
JavaScript `Object.is` (no `NaN`/`-0` since numbers are modelled by `Int`). -/
inductive JSValue where
  | undef
  | jsNull
  | jsStr (s : String)
  | jsNum (n : Int)
  | jsBool (b : Bool)
  | jsObj (id : Nat)
deriving DecidableEq, Repr

/-- `Object.is`, as used by the change handlers in `class.ts`. -/
def jsIs (a b : JSValue) : Bool := decide (a = b)

/-- `'error' | 'warning' | 'success' | 'info'` (`FormFieldMessageType`). -/
inductive MsgType where
  | error
  | warning
  | success
  | info
deriving DecidableEq, Repr

/-- `FormFieldMessage`: `{ message?: string; type?: FormFieldMessageType }`. -/
structure Message where
  message : Option String
  type : Option MsgType
deriving DecidableEq, Repr

/-- `'onTouch' | 'onChange' | 'onBlur' | 'all'` (`FormValidationEventName`). -/
inductive EventName where
  | onTouch
  | onChange
  | onBlur
  | all
deriving DecidableEq, Repr

/-- `FormFieldState` of `types.ts`. -/
structure FieldState where
  touched : Nat
  changed : Nat
  blurred : Nat
  error : Bool
  warning : Bool
  messages : Option (List Message)
deriving DecidableEq, Repr

/-- `FormFieldInternalState` of `types.ts`.  `rulesMessages` is a sparse
array: `none` entries are holes. -/
structure InternalFieldState where
  requiredMessage : Option Message
  rulesMessages : Option (List (Option Message))
  customMessages : Option (List Message)
  errorOverride : Option Bool
  warningOverride : Option Bool
deriving DecidableEq, Repr

/-- `_getEmptyFieldState`. -/
def emptyFieldState : FieldState :=
  { touched := 0, changed := 0, blurred := 0, error := false, warning := false,
    messages := none }

/-- `_getEmptyInternalFieldState`. -/
def emptyInternalFieldState : InternalFieldState :=
  { requiredMessage := none, rulesMessages := none, customMessages := none,
    errorOverride := none, warningOverride := none }

/-- One invocation of a change-notification callback. -/
inductive Event where
  | valueChange (field : String) (value : JSValue) (prevValue : JSValue)
  | messagesChange (field : String) (messages : Option (List Message))
      (prevMessages : Option (List Message))
  | errorChange (field : String) (error : Bool) (prevError : Bool)
  | warningChange (field : String) (warning : Bool) (prevWarning : Bool)
deriving DecidableEq, Repr

/-- Whether an event is a value-change notification (`onValueChange`). -/
def Event.isValueChange : Event → Bool
  | .valueChange _ _ _ => true
  | _ => false

/-! ### Association-list model of `Map` -/

/-- `Map.get`. -/
def mapGet {α : Type} (m : List (String × α)) (k : String) : Option α :=
  match m with
  | [] => none
  | (k', v) :: rest => if k' = k then some v else mapGet rest k

/-- `Map.set`: updates in place if the key exists (keeping its position),
otherwise appends. -/
def mapSet {α : Type} (m : List (String × α)) (k : String) (v : α) :
    List (String × α) :=
  match m with
  | [] => [(k, v)]
  | (k', v') :: rest =>
    if k' = k then (k', v) :: rest else (k', v') :: mapSet rest k v

/-- `Map.delete` (ignoring the returned boolean). -/
def mapRemove {α : Type} (m : List (String × α)) (k : String) :
    List (String × α) :=
  match m with
  | [] => []
  | (k', v') :: rest =>
    if k' = k then rest else (k', v') :: mapRemove rest k

theorem mapGet_mapSet_self {α : Type} (m : List (String × α)) (k : String)
    (v : α) : mapGet (mapSet m k v) k = some v := by
  induction m with
  | nil => simp [mapGet, mapSet]
  | cons hd tl ih =>
    obtain ⟨k', v'⟩ := hd
    by_cases h : k' = k <;> simp [mapGet, mapSet, h, ih]

theorem mapGet_mapSet_ne {α : Type} (m : List (String × α)) (k k' : String)
    (v : α) (h : k ≠ k') : mapGet (mapSet m k v) k' = mapGet m k' := by
  induction m with
  | nil => simp [mapGet, mapSet, h]
  | cons hd tl ih =>
    obtain ⟨k'', v''⟩ := hd
    by_cases h2 : k'' = k
    · subst h2
      simp [mapGet, mapSet, h]
    · simp [mapGet, mapSet, h2, ih]

theorem mapSet_self {α : Type} (m : List (String × α)) (k : String) (v : α)
    (h : mapGet m k = some v) : mapSet m k v = m := by
  induction m with
  | nil => simp [mapGet] at h
  | cons hd tl ih =>
    obtain ⟨k', v'⟩ := hd
    by_cases h2 : k' = k
    · subst h2
      simp [mapGet] at h
      simp [mapSet, h]
    · simp [mapGet, h2] at h
      simp [mapSet, h2, ih h]

/-! ### Message recompute: `_updateFieldMessages` -/

/-- The `only` parameter of `_updateFieldMessages`. -/
inductive OnlyFlag where
  | onlyError
  | onlyWarning
deriving DecidableEq, Repr

/-- Accumulator for the message/flag rebuild inside `_updateFieldMessages`:
the `fieldState.messages` / `.error` / `.warning` fields being mutated. -/
structure UfmAcc where
  messages : Option (List Message)
  error : Bool
  warning : Bool
deriving DecidableEq, Repr

/-- `processInternalMessage` closure of `_updateFieldMessages`:
pushes the message (full mode only) and folds the error/warning flags,
with a set override pinning the corresponding flag. -/
def processInternalMessage (only : Option OnlyFlag) (errorOverride : Option Bool)
    (warningOverride : Option Bool) (acc : UfmAcc) (msg : Message) : UfmAcc :=
  { messages :=
      if only = none then some (acc.messages.getD [] ++ [msg]) else acc.messages
    error :=
      if only ≠ some .onlyWarning then
        errorOverride.getD (acc.error || msg.type = some .error)
      else acc.error
    warning :=
      if only ≠ some .onlyError then
        warningOverride.getD (acc.warning || msg.type = some .warning)
      else acc.warning }

/-- Step of the `rulesMessages` loop of `_updateFieldMessages`: holes of the
sparse array (`if (message)`) are skipped. -/
def processInternalMessageSkip (only : Option OnlyFlag) (eo wo : Option Bool)
    (a : UfmAcc) (om : Option Message) : UfmAcc :=
  match om with
  | some m => processInternalMessage only eo wo a m
  | none => a

/-- Pure core of `_updateFieldMessages` (lines 507-552 of `class.ts`):
rebuilds `messages`, `error`, `warning` of a field state from the internal
message state.  The three source loops (required message, `rulesMessages`
with holes skipped, `customMessages`) appear in the same order. -/
def updateFieldMessagesCore (ist : InternalFieldState) (fs : FieldState)
    (only : Option OnlyFlag) : FieldState :=
  let acc0 : UfmAcc :=
    { messages := if only = none then none else fs.messages
      error := if only ≠ some .onlyWarning then ist.errorOverride.getD false else fs.error
      warning := if only ≠ some .onlyError then ist.warningOverride.getD false else fs.warning }
  let acc1 :=
    match ist.requiredMessage with
    | some m => processInternalMessage only ist.errorOverride ist.warningOverride acc0 m
    | none => acc0
  let acc2 :=
    match ist.rulesMessages with
    | some l =>
      l.foldl (processInternalMessageSkip only ist.errorOverride ist.warningOverride) acc1
    | none => acc1
  let acc3 :=
    match ist.customMessages with
    | some l =>
      l.foldl (processInternalMessage only ist.errorOverride ist.warningOverride) acc2
    | none => acc2
  { fs with messages := acc3.messages, error := acc3.error, warning := acc3.warning }

/-- The active messages of an internal field state, i.e. the concatenation
described by the specification: required message (if any), defined entries of
`rulesMessages` in index order, then custom messages in append order. -/
def activeMessages (ist : InternalFieldState) : List Message :=
  ist.requiredMessage.toList ++ (ist.rulesMessages.getD []).filterMap id ++
    ist.customMessages.getD []

theorem pim_messages_fold (eo wo : Option Bool) (l : List Message) :
    ∀ acc : UfmAcc,
      (l.foldl (processInternalMessage none eo wo) acc).messages =
        (if acc.messages = none ∧ l = [] then none
         else some (acc.messages.getD [] ++ l)) := by
  induction l with
  | nil =>
    intro acc
    cases h : acc.messages <;> simp [h]
  | cons m rest ih =>
    intro acc
    rw [List.foldl_cons, ih]
    cases h : acc.messages <;> simp [processInternalMessage, h]

theorem pim_skip_fold (only : Option OnlyFlag) (eo wo : Option Bool)
    (l : List (Option Message)) :
    ∀ acc : UfmAcc,
      (l.foldl (processInternalMessageSkip only eo wo) acc) =
      ((l.filterMap id).foldl (processInternalMessage only eo wo) acc) := by
  induction l with
  | nil => intro acc; simp
  | cons om rest ih =>
    intro acc
    cases om <;> simp [processInternalMessageSkip, ih]

theorem pim_error_fold (eo wo : Option Bool) (l : List Message) :
    ∀ acc : UfmAcc, (eo = none → True) →
      (∀ b, eo = some b → acc.error = b) →
      (l.foldl (processInternalMessage none eo wo) acc).error =
        eo.getD (acc.error || l.any (fun m => m.type = some .error)) := by
  induction l with
  | nil =>
    intro acc _ hpin
    cases heo : eo with
    | none => simp
    | some b => simp [hpin b heo]
  | cons m rest ih =>
    intro acc htriv hpin
    rw [List.foldl_cons, ih _ htriv]
    · cases heo : eo with
      | none => simp [processInternalMessage, Bool.or_assoc]
      | some b => simp [processInternalMessage, heo]
    · intro b heo
      simp [processInternalMessage, heo]

theorem pim_warning_fold (eo wo : Option Bool) (l : List Message) :
    ∀ acc : UfmAcc,
      (∀ b, wo = some b → acc.warning = b) →
      (l.foldl (processInternalMessage none eo wo) acc).warning =
        wo.getD (acc.warning || l.any (fun m => m.type = some .warning)) := by
  induction l with
  | nil =>
    intro acc hpin
    cases hwo : wo with
    | none => simp
    | some b => simp [hpin b hwo]
  | cons m rest ih =>
    intro acc hpin
    rw [List.foldl_cons, ih]
    · cases hwo : wo with
      | none => simp [processInternalMessage, Bool.or_assoc]
      | some b => simp [processInternalMessage, hwo]
    · intro b hwo
      simp [processInternalMessage, hwo]

/-- The full (`only = none`) recompute folds `processInternalMessage` over
exactly `activeMessages ist`, starting from the override-initialised
accumulator. -/
theorem updateFieldMessagesCore_eq_fold (ist : InternalFieldState)
    (fs : FieldState) :
    updateFieldMessagesCore ist fs none =
      { fs with
          messages := ((activeMessages ist).foldl
            (processInternalMessage none ist.errorOverride ist.warningOverride)
            ⟨none, ist.errorOverride.getD false, ist.warningOverride.getD false⟩).messages
          error := ((activeMessages ist).foldl
            (processInternalMessage none ist.errorOverride ist.warningOverride)
            ⟨none, ist.errorOverride.getD false, ist.warningOverride.getD false⟩).error
          warning := ((activeMessages ist).foldl
            (processInternalMessage none ist.errorOverride ist.warningOverride)
            ⟨none, ist.errorOverride.getD false, ist.warningOverride.getD false⟩).warning } := by
  unfold updateFieldMessagesCore activeMessages
  cases hreq : ist.requiredMessage <;>
    cases hrm : ist.rulesMessages <;>
      cases hcm : ist.customMessages <;>
        simp [pim_skip_fold, List.foldl_append]

theorem updateFieldMessagesCore_messages (ist : InternalFieldState)
    (fs : FieldState) :
    (updateFieldMessagesCore ist fs none).messages =
      (if activeMessages ist = [] then none else some (activeMessages ist)) := by
  rw [updateFieldMessagesCore_eq_fold]
  simp only [pim_messages_fold]
  cases h : activeMessages ist <;> simp [h]

theorem updateFieldMessagesCore_error (ist : InternalFieldState)
    (fs : FieldState) :
    (updateFieldMessagesCore ist fs none).error =
      ist.errorOverride.getD
        ((activeMessages ist).any (fun m => m.type = some .error)) := by
  rw [updateFieldMessagesCore_eq_fold]
  simp only
  rw [pim_error_fold]
  · cases h : ist.errorOverride <;> simp
  · intro; trivial
  · intro b hb
    simp [hb]

theorem updateFieldMessagesCore_warning (ist : InternalFieldState)
    (fs : FieldState) :
    (updateFieldMessagesCore ist fs none).warning =
      ist.warningOverride.getD
        ((activeMessages ist).any (fun m => m.type = some .warning)) := by
  rw [updateFieldMessagesCore_eq_fold]
  simp only
  rw [pim_warning_fold]
  · cases h : ist.warningOverride <;> simp
  · intro b hb
    simp [hb]

theorem updateFieldMessagesCore_counters (ist : InternalFieldState)
    (fs : FieldState) (only : Option OnlyFlag) :
    (updateFieldMessagesCore ist fs only).touched = fs.touched ∧
    (updateFieldMessagesCore ist fs only).changed = fs.changed ∧
    (updateFieldMessagesCore ist fs only).blurred = fs.blurred := by
  unfold updateFieldMessagesCore
  exact ⟨rfl, rfl, rfl⟩

/-! ### Validation rule data (`types.ts`) -/

/-- Result of one call of a rule's `validate` function at the current values:
a synchronous boolean, a synchronous throw, a promise that resolves to a
boolean, or a promise that rejects. -/
inductive VResult where
  | ok (b : Bool)
  | thrown
  | asyncOk (b : Bool)
  | asyncThrown
deriving DecidableEq, Repr

/-- `needMoreValues?: boolean | FormField[]` (absent / `false` is `none`). -/
inductive NeedMore where
  | allValues
  | someFields (fs : List String)

/-- `FormFieldValidationRule`.  The `validate` function receives the current
field value and (when `needMoreValues` is set) a snapshot of form values; its
runtime behaviour at those arguments is a `VResult`. -/
structure Rule where
  message : Option String := none
  type : Option MsgType := none
  typeIfPassed : Option MsgType := none
  validate : Option (JSValue → Option (List (String × JSValue)) → VResult) := none
  needMoreValues : Option NeedMore := none
  eventName : Option EventName := none

/-- `required?: boolean | string | FormFieldValidationRule`; absent or
`false` is modelled as the `required` field being `none`. -/
inductive RequiredConfig where
  | asTrue
  | asString (s : String)
  | asRule (r : Rule)

/-- `FormFieldValidation`. -/
structure FieldValidation where
  eventName : Option EventName := none
  rules : List (Option Rule) := []
  required : Option RequiredConfig := none
  requiredValidate : Option (JSValue → VResult) := none

/-- The form-level options relevant to the state/validation engine
(`FormOptions` minus the callbacks, which are modelled by the event trace). -/
structure CtrlOptions where
  validationEventName : Option EventName := none
  requiredValidate : Option (JSValue → VResult) := none
  requiredMessage : Option String := none
  defaultValues : Option (List (String × JSValue)) := none

/-- `FORM_CTRL_DEFAULTS.validationEventName`. -/
def defaultValidationEventName : EventName := .onBlur

/-- `FORM_CTRL_DEFAULTS.requiredValidate`:
`(v) => v !== undefined && v !== null && v !== '' && v !== 0`. -/
def defaultRequiredValidate (v : JSValue) : VResult :=
  .ok (decide (v ≠ .undef) && decide (v ≠ .jsNull) &&
       decide (v ≠ .jsStr "") && decide (v ≠ .jsNum 0))

/-- `FORM_CTRL_DEFAULTS.requiredMessage` (left undefined in the source). -/
def defaultRequiredMessage : Option String := none

/-! ### The controller state (`FormCtrl` instance fields) -/

/-- The mutable state of one `FormCtrl` instance: its options and the four
per-field maps (`_valuesMap`, `_stateMap`, `_internalStateMap`,
`_validationMap`; the `_elementMap` of DOM elements is outside the model). -/
structure Ctrl where
  options : CtrlOptions
  valuesMap : List (String × JSValue)
  stateMap : List (String × FieldState)
  internalStateMap : List (String × InternalFieldState)
  validationMap : List (String × FieldValidation)

/-- A controller with no values, state or validation. -/
def emptyCtrl (options : CtrlOptions) : Ctrl :=
  { options := options, valuesMap := [], stateMap := [], internalStateMap := [],
    validationMap := [] }

/-- `getValue`: `Map.get` yields `undefined` for absent fields. -/
def getValue (vm : List (String × JSValue)) (f : String) : JSValue :=
  (mapGet vm f).getD JSValue.undef

/-- The field state `getFieldState` would observe (an absent entry reads as
the empty state `_ensureFieldState` would create). -/
def fieldStateOf (c : Ctrl) (f : String) : FieldState :=
  (mapGet c.stateMap f).getD emptyFieldState

/-- The internal message state of a field (absent entry reads as empty). -/
def internalOf (c : Ctrl) (f : String) : InternalFieldState :=
  (mapGet c.internalStateMap f).getD emptyInternalFieldState

/-- `_ensureFieldState` on the raw state map: returns the (possibly updated)
map together with the found-or-created record. -/
def ensureFieldStateIn (m : List (String × FieldState)) (f : String) :
    List (String × FieldState) × FieldState :=
  match mapGet m f with
  | some fs => (m, fs)
  | none => (mapSet m f emptyFieldState, emptyFieldState)

/-- `_ensureInternalFieldState` on the raw internal-state map. -/
def ensureInternalIn (m : List (String × InternalFieldState)) (f : String) :
    List (String × InternalFieldState) × InternalFieldState :=
  match mapGet m f with
  | some ist => (m, ist)
  | none => (mapSet m f emptyInternalFieldState, emptyInternalFieldState)

/-- `_updateFieldMessages` (controller level): recomputes the field state
from the internal state and emits the three change notifications.

Notification conditions encode the `Object.is` checks of the `_on*Change`
handlers: a full rebuild always allocates a fresh `messages` array, so
`onMessagesChange` fires unless the old and new values are both `null`;
in `only` mode `fieldState.messages` is untouched (same reference), so
`onMessagesChange` never fires. -/
def updateFieldMessagesCtrl (c : Ctrl) (f : String) (only : Option OnlyFlag) :
    Ctrl × List Event :=
  let e1 := ensureFieldStateIn c.stateMap f
  let e2 := ensureInternalIn c.internalStateMap f
  let fs := e1.2
  let ist := e2.2
  let fs' := updateFieldMessagesCore ist fs only
  let evs :=
    (if only = none ∧ ¬(fs'.messages = none ∧ fs.messages = none) then
       [Event.messagesChange f fs'.messages fs.messages]
     else []) ++
    (if fs'.error ≠ fs.error then [Event.errorChange f fs'.error fs.error] else []) ++
    (if fs'.warning ≠ fs.warning then [Event.warningChange f fs'.warning fs.warning] else [])
  ({ c with stateMap := mapSet e1.1 f fs', internalStateMap := e2.1 }, evs)

/-! ### Field-state operations -/

/-- `incrementChanged(field, byUser?)`. -/
def incrementChanged (c : Ctrl) (f : String) (byUser : Bool) : Ctrl :=
  let e := ensureFieldStateIn c.stateMap f
  let fs := e.2
  let fs' := { fs with changed := fs.changed + 1, touched := fs.touched + (if byUser then 1 else 0) }
  { c with stateMap := mapSet e.1 f fs' }

/-- `incrementBlurred(field)`. -/
def incrementBlurred (c : Ctrl) (f : String) : Ctrl :=
  let e := ensureFieldStateIn c.stateMap f
  let fs := e.2
  { c with stateMap := mapSet e.1 f { fs with blurred := fs.blurred + 1 } }

/-- `forceFieldError(field, error)`. -/
def forceFieldError (c : Ctrl) (f : String) (err : Bool) : Ctrl × List Event :=
  let e2 := ensureInternalIn c.internalStateMap f
  let im := mapSet e2.1 f { e2.2 with errorOverride := some err }
  let e1 := ensureFieldStateIn c.stateMap f
  let prevError := e1.2.error
  let sm := mapSet e1.1 f { e1.2 with error := err }
  ({ c with internalStateMap := im, stateMap := sm },
   if err ≠ prevError then [Event.errorChange f err prevError] else [])

/-- `forceFieldWarning(field, warning)`. -/
def forceFieldWarning (c : Ctrl) (f : String) (w : Bool) : Ctrl × List Event :=
  let e2 := ensureInternalIn c.internalStateMap f
  let im := mapSet e2.1 f { e2.2 with warningOverride := some w }
  let e1 := ensureFieldStateIn c.stateMap f
  let prevWarning := e1.2.warning
  let sm := mapSet e1.1 f { e1.2 with warning := w }
  ({ c with internalStateMap := im, stateMap := sm },
   if w ≠ prevWarning then [Event.warningChange f w prevWarning] else [])

/-- `unforceFieldError(field)`. -/
def unforceFieldError (c : Ctrl) (f : String) : Ctrl × List Event :=
  match mapGet c.internalStateMap f with
  | none => (c, [])
  | some ist =>
    let im := mapSet c.internalStateMap f { ist with errorOverride := none }
    updateFieldMessagesCtrl { c with internalStateMap := im } f (some .onlyError)

/-- `unforceFieldWarning(field)`. -/
def unforceFieldWarning (c : Ctrl) (f : String) : Ctrl × List Event :=
  match mapGet c.internalStateMap f with
  | none => (c, [])
  | some ist =>
    let im := mapSet c.internalStateMap f { ist with warningOverride := none }
    updateFieldMessagesCtrl { c with internalStateMap := im } f (some .onlyWarning)

/-- `clearFieldMessages(field)`. -/
def clearFieldMessages (c : Ctrl) (f : String) : Ctrl × List Event :=
  match mapGet c.internalStateMap f with
  | none => (c, [])
  | some ist =>
    let ist' := { ist with requiredMessage := none, rulesMessages := none, customMessages := none }
    let im := mapSet c.internalStateMap f ist'
    updateFieldMessagesCtrl { c with internalStateMap := im } f none

/-- `clearFieldValidationMessages(field)`. -/
def clearFieldValidationMessages (c : Ctrl) (f : String) : Ctrl × List Event :=
  match mapGet c.internalStateMap f with
  | none => (c, [])
  | some ist =>
    let ist' := { ist with requiredMessage := none, rulesMessages := none }
    let im := mapSet c.internalStateMap f ist'
    updateFieldMessagesCtrl { c with internalStateMap := im } f none

/-- `clearFieldCustomMessages(field)`. -/
def clearFieldCustomMessages (c : Ctrl) (f : String) : Ctrl × List Event :=
  match mapGet c.internalStateMap f with
  | none => (c, [])
  | some ist =>
    let im := mapSet c.internalStateMap f { ist with customMessages := none }
    updateFieldMessagesCtrl { c with internalStateMap := im } f none

/-- `addFieldCustomMessages(field, messages)`. -/
def addFieldCustomMessages (c : Ctrl) (f : String) (msgs : List Message) :
    Ctrl × List Event :=
  let e2 := ensureInternalIn c.internalStateMap f
  let ist := e2.2
  let ist' := { ist with customMessages := some (ist.customMessages.getD [] ++ msgs) }
  updateFieldMessagesCtrl { c with internalStateMap := mapSet e2.1 f ist' } f none

/-- `resetFieldCustomMessages(field, messages)`. -/
def resetFieldCustomMessages (c : Ctrl) (f : String) (msgs : List Message) :
    Ctrl × List Event :=
  let e2 := ensureInternalIn c.internalStateMap f
  let im := mapSet e2.1 f { e2.2 with customMessages := some msgs }
  updateFieldMessagesCtrl { c with internalStateMap := im } f none

/-! ### Basic lemmas about ensure/update -/

theorem ensureFieldStateIn_snd (m : List (String × FieldState)) (f : String) :
    (ensureFieldStateIn m f).2 = (mapGet m f).getD emptyFieldState := by
  cases h : mapGet m f <;> simp [ensureFieldStateIn, h]

theorem ensureInternalIn_snd (m : List (String × InternalFieldState)) (f : String) :
    (ensureInternalIn m f).2 = (mapGet m f).getD emptyInternalFieldState := by
  cases h : mapGet m f <;> simp [ensureInternalIn, h]

theorem ensureFieldStateIn_fst_get (m : List (String × FieldState)) (f : String) :
    mapGet (ensureFieldStateIn m f).1 f = some ((mapGet m f).getD emptyFieldState) := by
  cases h : mapGet m f <;> simp [ensureFieldStateIn, h, mapGet_mapSet_self]

theorem ensureFieldStateIn_fst_get_ne (m : List (String × FieldState)) (f g : String)
    (h : f ≠ g) : mapGet (ensureFieldStateIn m f).1 g = mapGet m g := by
  cases h2 : mapGet m f <;> simp [ensureFieldStateIn, h2, mapGet_mapSet_ne _ _ _ _ h]

theorem ensureInternalIn_fst_get (m : List (String × InternalFieldState)) (f : String) :
    mapGet (ensureInternalIn m f).1 f =
      some ((mapGet m f).getD emptyInternalFieldState) := by
  cases h : mapGet m f <;> simp [ensureInternalIn, h, mapGet_mapSet_self]

theorem ensureInternalIn_fst_get_ne (m : List (String × InternalFieldState))
    (f g : String) (h : f ≠ g) :
    mapGet (ensureInternalIn m f).1 g = mapGet m g := by
  cases h2 : mapGet m f <;> simp [ensureInternalIn, h2, mapGet_mapSet_ne _ _ _ _ h]

theorem ufm_fieldState_at (c : Ctrl) (f : String) (only : Option OnlyFlag) :
    fieldStateOf (updateFieldMessagesCtrl c f only).1 f =
      updateFieldMessagesCore (internalOf c f) (fieldStateOf c f) only := by
  unfold updateFieldMessagesCtrl fieldStateOf internalOf
  simp [mapGet_mapSet_self, ensureFieldStateIn_snd, ensureInternalIn_snd]

theorem ufm_fieldState_ne (c : Ctrl) (f g : String) (only : Option OnlyFlag)
    (h : f ≠ g) :
    fieldStateOf (updateFieldMessagesCtrl c f only).1 g = fieldStateOf c g := by
  unfold updateFieldMessagesCtrl fieldStateOf
  simp [mapGet_mapSet_ne _ _ _ _ h, ensureFieldStateIn_fst_get_ne _ _ _ h]

theorem ufm_internal (c : Ctrl) (f g : String) (only : Option OnlyFlag) :
    internalOf (updateFieldMessagesCtrl c f only).1 g = internalOf c g := by
  unfold updateFieldMessagesCtrl internalOf
  by_cases h : f = g
  · subst h
    simp [ensureInternalIn_fst_get]
  · simp [ensureInternalIn_fst_get_ne _ _ _ h]

theorem ufm_components (c : Ctrl) (f : String) (only : Option OnlyFlag) :
    (updateFieldMessagesCtrl c f only).1.options = c.options ∧
    (updateFieldMessagesCtrl c f only).1.valuesMap = c.valuesMap ∧
    (updateFieldMessagesCtrl c f only).1.validationMap = c.validationMap := by
  unfold updateFieldMessagesCtrl
  exact ⟨rfl, rfl, rfl⟩

theorem ufm_counters (c : Ctrl) (f g : String) (only : Option OnlyFlag) :
    (fieldStateOf (updateFieldMessagesCtrl c f only).1 g).touched =
      (fieldStateOf c g).touched ∧
    (fieldStateOf (updateFieldMessagesCtrl c f only).1 g).changed =
      (fieldStateOf c g).changed ∧
    (fieldStateOf (updateFieldMessagesCtrl c f only).1 g).blurred =
      (fieldStateOf c g).blurred := by
  by_cases h : f = g
  · subst h
    rw [ufm_fieldState_at]
    exact updateFieldMessagesCore_counters _ _ _
  · rw [ufm_fieldState_ne _ _ _ _ h]
    exact ⟨rfl, rfl, rfl⟩

theorem ufm_events_not_value (c : Ctrl) (f : String) (only : Option OnlyFlag) :
    ∀ e ∈ (updateFieldMessagesCtrl c f only).2, e.isValueChange = false := by
  unfold updateFieldMessagesCtrl
  intro e he
  simp only [List.mem_append] at he
  rcases he with (he | he) | he <;>
    · split at he <;> simp_all [Event.isValueChange]

theorem clearFieldMessages_some (c : Ctrl) (f : String) (ist : InternalFieldState) (h : mapGet c.internalStateMap f = some ist) : clearFieldMessages c f = updateFieldMessagesCtrl { c with internalStateMap := mapSet c.internalStateMap f { ist with requiredMessage := none, rulesMessages := none, customMessages := none } } f none := by
  unfold clearFieldMessages
  rw [h]

theorem clearFieldValidationMessages_some (c : Ctrl) (f : String) (ist : InternalFieldState) (h : mapGet c.internalStateMap f = some ist) : clearFieldValidationMessages c f = updateFieldMessagesCtrl { c with internalStateMap := mapSet c.internalStateMap f { ist with requiredMessage := none, rulesMessages := none } } f none := by
  unfold clearFieldValidationMessages
  rw [h]

theorem clearFieldCustomMessages_some (c : Ctrl) (f : String) (ist : InternalFieldState) (h : mapGet c.internalStateMap f = some ist) : clearFieldCustomMessages c f = updateFieldMessagesCtrl { c with internalStateMap := mapSet c.internalStateMap f { ist with customMessages := none } } f none := by
  unfold clearFieldCustomMessages
  rw [h]

/-! ### Claim theorems C1, C5, C9 -/

/-- Claim C1: after any full recompute of field state from internal message
state (`_updateFieldMessages` without `only`), `getFieldState(field).messages`
is `null` when there are no active messages and otherwise is the non-empty
concatenation: required message (if present), then each defined entry of
`rulesMessages` in rule-index order, then each custom message in the order it
was added — which is exactly `activeMessages`. -/
theorem claim_c1 (c : Ctrl) (f : String) :
    (fieldStateOf (updateFieldMessagesCtrl c f none).1 f).messages =
      (if activeMessages (internalOf c f) = [] then none
       else some (activeMessages (internalOf c f))) := by
  rw [ufm_fieldState_at]
  exact updateFieldMessagesCore_messages _ _

/-- Claim C5 fails as stated: an error override of `false` pins
`fieldState.error` to `false` even while an active message of type `error`
exists.  The state is reached by `addFieldCustomMessages` (one error message)
followed by `forceFieldError(field, false)`. -/
def c5state : Ctrl :=
  (forceFieldError
    (addFieldCustomMessages (emptyCtrl {}) "x"
      [{ message := some "boom", type := some MsgType.error }]).1
    "x" false).1

/-- Claim C5 counterexample: in the reachable state `c5state`, the claimed
equivalence (error is true iff the override forces true or some active
message has type error) is false — the message list contains an error-typed
message but `error` is `false` because the override pins it. -/
theorem claim_c5_counterexample :
    ¬(((fieldStateOf c5state "x").error = true) ↔
      ((internalOf c5state "x").errorOverride = some true ∨
       ∃ m ∈ ((fieldStateOf c5state "x").messages.getD []),
         m.type = some MsgType.error)) := by
  decide

/-- Claim C5 amended: after a full recompute, `error` equals the override
when one is set (so a `false` override pins `error` to `false` even with
active error messages); with no override, `error` is true iff some active
message has type `error`.  Same for `warning`. -/
theorem claim_c5_amended (c : Ctrl) (f : String) :
    ((fieldStateOf (updateFieldMessagesCtrl c f none).1 f).error = true ↔
      ((internalOf c f).errorOverride = some true ∨
       ((internalOf c f).errorOverride = none ∧
        ∃ m ∈ activeMessages (internalOf c f), m.type = some MsgType.error))) ∧
    ((fieldStateOf (updateFieldMessagesCtrl c f none).1 f).warning = true ↔
      ((internalOf c f).warningOverride = some true ∨
       ((internalOf c f).warningOverride = none ∧
        ∃ m ∈ activeMessages (internalOf c f), m.type = some MsgType.warning))) := by
  rw [ufm_fieldState_at]
  constructor
  · rw [updateFieldMessagesCore_error]
    cases h : (internalOf c f).errorOverride with
    | none => simp [List.any_eq_true]
    | some b => cases b <;> simp
  · rw [updateFieldMessagesCore_warning]
    cases h : (internalOf c f).warningOverride with
    | none => simp [List.any_eq_true]
    | some b => cases b <;> simp

/-- Claim C9: after `forceFieldError(field, true)`, a subsequent
`clearFieldMessages(field)` clears all message sources (required, rules and
custom messages, hence `messages` becomes `null`) but leaves
`getFieldState(field).error === true`, because the error/warning overrides
survive every message-clearing operation (they are only removed by the
unforce operations or by clearing the field state). -/
theorem claim_c9 (c : Ctrl) (f : String) :
    (fieldStateOf (clearFieldMessages (forceFieldError c f true).1 f).1 f).error = true ∧
    (internalOf (clearFieldMessages (forceFieldError c f true).1 f).1 f).errorOverride
      = some true ∧
    (internalOf (clearFieldMessages (forceFieldError c f true).1 f).1 f).requiredMessage
      = none ∧
    (internalOf (clearFieldMessages (forceFieldError c f true).1 f).1 f).rulesMessages
      = none ∧
    (internalOf (clearFieldMessages (forceFieldError c f true).1 f).1 f).customMessages
      = none ∧
    (fieldStateOf (clearFieldMessages (forceFieldError c f true).1 f).1 f).messages
      = none ∧
    (internalOf (clearFieldMessages c f).1 f).errorOverride
      = (internalOf c f).errorOverride ∧
    (internalOf (clearFieldMessages c f).1 f).warningOverride
      = (internalOf c f).warningOverride ∧
    (internalOf (clearFieldValidationMessages c f).1 f).errorOverride
      = (internalOf c f).errorOverride ∧
    (internalOf (clearFieldValidationMessages c f).1 f).warningOverride
      = (internalOf c f).warningOverride ∧
    (internalOf (clearFieldCustomMessages c f).1 f).errorOverride
      = (internalOf c f).errorOverride ∧
    (internalOf (clearFieldCustomMessages c f).1 f).warningOverride
      = (internalOf c f).warningOverride := by
  have hget : mapGet (forceFieldError c f true).1.internalStateMap f =
      some { internalOf c f with errorOverride := some true } := by
    unfold forceFieldError internalOf
    simp [mapGet_mapSet_self, ensureInternalIn_snd]
  have hclr := clearFieldMessages_some _ f _ hget
  refine ⟨?_, ?_, ?_, ?_, ?_, ?_, ?_, ?_, ?_, ?_, ?_, ?_⟩
  · rw [hclr, ufm_fieldState_at, updateFieldMessagesCore_error]
    simp [internalOf, mapGet_mapSet_self]
  · rw [hclr, ufm_internal]
    simp [internalOf, mapGet_mapSet_self]
  · rw [hclr, ufm_internal]
    simp [internalOf, mapGet_mapSet_self]
  · rw [hclr, ufm_internal]
    simp [internalOf, mapGet_mapSet_self]
  · rw [hclr, ufm_internal]
    simp [internalOf, mapGet_mapSet_self]
  · rw [hclr, ufm_fieldState_at, updateFieldMessagesCore_messages]
    simp [internalOf, mapGet_mapSet_self, activeMessages]
  · cases h : mapGet c.internalStateMap f with
    | none => simp [clearFieldMessages, h]
    | some ist =>
      rw [clearFieldMessages_some c f ist h, ufm_internal]
      simp [internalOf, mapGet_mapSet_self, h]
  · cases h : mapGet c.internalStateMap f with
    | none => simp [clearFieldMessages, h]
    | some ist =>
      rw [clearFieldMessages_some c f ist h, ufm_internal]
      simp [internalOf, mapGet_mapSet_self, h]
  · cases h : mapGet c.internalStateMap f with
    | none => simp [clearFieldValidationMessages, h]
    | some ist =>
      rw [clearFieldValidationMessages_some c f ist h, ufm_internal]
      simp [internalOf, mapGet_mapSet_self, h]
  · cases h : mapGet c.internalStateMap f with
    | none => simp [clearFieldValidationMessages, h]
    | some ist =>
      rw [clearFieldValidationMessages_some c f ist h, ufm_internal]
      simp [internalOf, mapGet_mapSet_self, h]
  · cases h : mapGet c.internalStateMap f with
    | none => simp [clearFieldCustomMessages, h]
    | some ist =>
      rw [clearFieldCustomMessages_some c f ist h, ufm_internal]
      simp [internalOf, mapGet_mapSet_self, h]
  · cases h : mapGet c.internalStateMap f with
    | none => simp [clearFieldCustomMessages, h]
    | some ist =>
      rw [clearFieldCustomMessages_some c f ist h, ufm_internal]
      simp [internalOf, mapGet_mapSet_self, h]

/-! ### The validation engine: `validateField` / `validate` -/

/-- `everyTruthy` of `utils.ts`, at the boolean lists `validateField` and
`validate` apply it to. -/
def everyTruthy (l : List Bool) : Bool := l.all (fun b => b)

/-- `shallowEqual` of `utils.ts` restricted to the `{ message, type }` records
compared inside `validateField`.  On two present records the key-by-key `===`
comparison is structural equality (both records always carry both keys);
`null`/`undefined` arguments compare equal only by reference. -/
def shallowEqualMsg : Option Message → Option Message → Bool
  | none, none => true
  | some a, some b => decide (a = b)
  | _, _ => false

/-- Read a sparse-array slot: out-of-range and holes read as `undefined`. -/
def getPad : List (Option Message) → Nat → Option Message
  | [], _ => none
  | x :: _, 0 => x
  | _ :: rest, n + 1 => getPad rest n

/-- Sparse-array assignment `arr[i] = v` / `delete arr[i]`: assignment past
the current length extends the array with holes (length becomes `i + 1`);
within range it replaces the slot (for `delete`, with a hole). -/
def setPad : List (Option Message) → Nat → Option Message → List (Option Message)
  | [], 0, v => [v]
  | [], n + 1, v => none :: setPad [] n v
  | _ :: rest, 0, v => v :: rest
  | x :: rest, n + 1, v => x :: setPad rest n v

theorem getPad_setPad (i : Nat) : ∀ (l : List (Option Message)) (j : Nat)
    (v : Option Message),
    getPad (setPad l i v) j = if i = j then v else getPad l j := by
  induction i with
  | zero =>
    intro l j v
    cases l <;> cases j <;> simp [getPad, setPad]
  | succ i ih =>
    intro l j v
    cases l <;> cases j <;> simp [getPad, setPad, ih]

/-- The `rulesMessages` array as seen inside `validateField` (already ensured
to be non-null there). -/
def rulesListOf (ist : InternalFieldState) : List (Option Message) :=
  ist.rulesMessages.getD []

/-- Read the internal-state slot a rule writes to: `none` index is the
`'required'` slot, `some i` the `rulesMessages[i]` slot. -/
def slotOf (ist : InternalFieldState) (idx : Option Nat) : Option Message :=
  match idx with
  | none => ist.requiredMessage
  | some i => getPad (rulesListOf ist) i

/-- Resolution of a rule's effective trigger inside `validateField`:
`rule.eventName || fieldValidation.eventName || options.validationEventName ||
FORM_CTRL_DEFAULTS.validationEventName`. -/
def resolveRuleEventName (rule : Rule) (fv : FieldValidation)
    (opts : CtrlOptions) : EventName :=
  rule.eventName.getD (fv.eventName.getD
    (opts.validationEventName.getD defaultValidationEventName))

/-- The applicability guard of `validateRule` in `validateField` (lines
921-935 of `class.ts`): with `eventName === 'all'` every rule applies;
otherwise the rule is skipped when its effective trigger is neither `'all'`
nor the event, except that `'onTouch'` also satisfies `'onChange'` rules. -/
def ruleApplied (ev ruleEv : EventName) : Bool :=
  if ev = .all then true
  else if ruleEv ≠ .all ∧ ruleEv ≠ ev ∧ (ev ≠ .onTouch ∨ ruleEv ≠ .onChange) then false
  else true

/-- The second argument passed to a rule's `validate` function:
`rule.needMoreValues ? getValues(needMoreValues === true ? undefined :
needMoreValues) : undefined`. -/
def moreValuesArg (vm : List (String × JSValue)) (rule : Rule) :
    Option (List (String × JSValue)) :=
  match rule.needMoreValues with
  | none => none
  | some .allValues => some vm
  | some (.someFields fs) => some (fs.map (fun g => (g, getValue vm g)))

/-- Result of the `try { if (rule.validate) passedMaybePromise = rule.validate(...) }`
block: when `validate` is absent, `passedMaybePromise` keeps its initial
(synchronous) `false`. -/
def ruleCallResult (vm : List (String × JSValue)) (f : String) (rule : Rule) :
    VResult :=
  match rule.validate with
  | some vf => vf (getValue vm f) (moreValuesArg vm rule)
  | none => .ok false

/-- The boolean outcome of one rule: a synchronous throw is caught
(`passedMaybePromise` stays `false`), an async rejection is mapped to `false`
by `.catch(() => false)`. -/
def rulePassed (vm : List (String × JSValue)) (f : String) (rule : Rule) : Bool :=
  match ruleCallResult vm f rule with
  | .ok b => b
  | .thrown => false
  | .asyncOk b => b
  | .asyncThrown => false

/-- Whether the rule's `validate` returned a promise (sets `promisified`). -/
def ruleIsPromise (vm : List (String × JSValue)) (f : String) (rule : Rule) : Bool :=
  match ruleCallResult vm f rule with
  | .ok _ => false
  | .thrown => false
  | .asyncOk _ => true
  | .asyncThrown => true

/-- The message `processPassed` stores for a rule (`none` = the slot is
cleared): on failure `{ message, type: rule.type || 'error' }`, on success
`{ message, type: rule.typeIfPassed }` only when `typeIfPassed` is set. -/
def ruleMessageOpt (vm : List (String × JSValue)) (f : String) (rule : Rule) :
    Option Message :=
  if rulePassed vm f rule then
    rule.typeIfPassed.map (fun t => { message := rule.message, type := some t })
  else
    some { message := rule.message, type := some (rule.type.getD .error) }

/-- Accumulator of one `validateField` run: the internal state being mutated
in place, the `needUpdate` / `promisified` flags and the `results` list. -/
structure VRAcc where
  ist : InternalFieldState
  needUpdate : Bool
  promisified : Bool
  results : List Bool

/-- The slot-update part of `processPassed`: writes the new message (or
clears the slot) only when it differs from the stored one under
`shallowEqual`, setting `needUpdate` when it does write.  (The source
branches on `msgType` first and then on `index`; the four cases are written
as clauses here.) -/
def processPassedSlot (acc : VRAcc) : Option Nat → Option Message → VRAcc
  | none, some message =>
    if shallowEqualMsg acc.ist.requiredMessage (some message) = false then
      { acc with ist := { acc.ist with requiredMessage := some message },
                 needUpdate := true }
    else acc
  | some i, some message =>
    if shallowEqualMsg (getPad (rulesListOf acc.ist) i) (some message) = false then
      { acc with ist := { acc.ist with rulesMessages := some (setPad (rulesListOf acc.ist) i (some message)) },
                 needUpdate := true }
    else acc
  | none, none =>
    if acc.ist.requiredMessage.isSome = true then
      { acc with ist := { acc.ist with requiredMessage := none },
                 needUpdate := true }
    else acc
  | some i, none =>
    if (getPad (rulesListOf acc.ist) i).isSome = true then
      { acc with ist := { acc.ist with rulesMessages := some (setPad (rulesListOf acc.ist) i none) },
                 needUpdate := true }
    else acc

/-- The `validateRule` closure of `validateField`: applicability check, call
of the rule's `validate`, `processPassed` on the (settled) outcome, and
recording of `promisified` and the rule's result.

Source timing note: for an asynchronous rule the source runs `processPassed`
when the promise settles; the model applies it in rule order, which yields
the same final slot contents since each rule owns a distinct slot. -/
def validateRule (opts : CtrlOptions) (vm : List (String × JSValue)) (f : String)
    (fv : FieldValidation) (ev : EventName) (acc : VRAcc) (rule : Rule)
    (idx : Option Nat) : VRAcc :=
  if ruleApplied ev (resolveRuleEventName rule fv opts) = true then
    let passed := rulePassed vm f rule
    let acc1 := processPassedSlot acc idx (ruleMessageOpt vm f rule)
    { acc1 with promisified := acc1.promisified || ruleIsPromise vm f rule,
                results := acc1.results ++ [passed] }
  else acc

/-- The `for (let i = 0; i < len; i++) { const rule = rules[i]; if (rule)
validateRule(rule, i); }` loop. -/
def validateRulesLoop (opts : CtrlOptions) (vm : List (String × JSValue))
    (f : String) (fv : FieldValidation) (ev : EventName) (acc : VRAcc) :
    List (Option Rule) → Nat → VRAcc
  | [], _ => acc
  | none :: rest, i => validateRulesLoop opts vm f fv ev acc rest (i + 1)
  | some rule :: rest, i =>
    validateRulesLoop opts vm f fv ev
      (validateRule opts vm f fv ev acc rule (some i)) rest (i + 1)

/-- Synthesis of the required rule (lines 1001-1020 of `class.ts`): a full
rule object is used as is; `true`/a string get `type: 'error'`, the
`requiredValidate` chain and the `requiredMessage` chain. -/
def requiredRuleOf (opts : CtrlOptions) (fv : FieldValidation)
    (req : RequiredConfig) : Rule :=
  match req with
  | .asRule r => r
  | .asTrue =>
    { type := some .error,
      validate := some (fun v _ =>
        match fv.requiredValidate.orElse (fun _ => opts.requiredValidate) with
        | some rv => rv v
        | none => defaultRequiredValidate v),
      message := opts.requiredMessage.orElse (fun _ => defaultRequiredMessage) }
  | .asString s =>
    { type := some .error,
      validate := some (fun v _ =>
        match fv.requiredValidate.orElse (fun _ => opts.requiredValidate) with
        | some rv => rv v
        | none => defaultRequiredValidate v),
      message := some s }

/-- `boolean | Promise<boolean>`: `promisified = false` models a plain
boolean return, `promisified = true` a promise that settles to `value`. -/
structure MaybePromiseBool where
  promisified : Bool
  value : Bool
deriving DecidableEq, Repr

/-- `validateField(field, eventName = 'all')` (lines 905-1048 of `class.ts`).
Returns the new controller state, the emitted notifications and the result.

The source defers the final `_updateFieldMessages` behind `Promise.all` when
promisified; the model performs the whole settled run at once (see
`validateRule` for the slot-order argument).  One timing difference is thereby
collapsed: the source reads `needUpdate` for the promisified branch before
asynchronous `processPassed` calls have run, so a slot change caused only by
asynchronous rules does not trigger the deferred recompute there, while this
model checks `needUpdate` after all rules; no claim proved in this file
depends on states where the two differ.  The accumulator appears as
`vfAcc1`/`vfAcc2` below; `validateFieldCtrl` wraps them with the state
write-back and the conditional recompute.

The accumulator at the end of one `validateField` run with validation
settings `fv`: required-rule step (`'required'` slot) followed by the rules
loop, starting from the ensured internal state whose `rulesMessages` has
been defaulted to `[]` (`internalFieldState.rulesMessages =
internalFieldState.rulesMessages || []`). -/
def vfAcc1 (c : Ctrl) (f : String) (ev : EventName) (fv : FieldValidation) :
    VRAcc :=
  let ist0 := (ensureInternalIn c.internalStateMap f).2
  let ist1 := { ist0 with rulesMessages := some (ist0.rulesMessages.getD []) }
  let acc0 : VRAcc := ⟨ist1, false, false, []⟩
  match fv.required with
  | some req =>
    validateRule c.options c.valuesMap f fv ev acc0
      (requiredRuleOf c.options fv req) none
  | none => acc0

def vfAcc2 (c : Ctrl) (f : String) (ev : EventName) (fv : FieldValidation) :
    VRAcc :=
  validateRulesLoop c.options c.valuesMap f fv ev (vfAcc1 c f ev fv) fv.rules 0

def validateFieldCtrl (c : Ctrl) (f : String) (ev : EventName) :
    Ctrl × List Event × MaybePromiseBool :=
  match mapGet c.validationMap f with
  | none => (c, [], ⟨false, true⟩)
  | some fv =>
    let acc2 := vfAcc2 c f ev fv
    let im := mapSet (ensureInternalIn c.internalStateMap f).1 f acc2.ist
    let c1 := { c with internalStateMap := im }
    if acc2.needUpdate = true then
      let r := updateFieldMessagesCtrl c1 f none
      (r.1, r.2, ⟨acc2.promisified, everyTruthy acc2.results⟩)
    else
      (c1, [], ⟨acc2.promisified, everyTruthy acc2.results⟩)

/-- One iteration of the `validate` loop: validate the field, merge events,
`promisified` and the collected results. -/
def validateStep (ev : Option EventName)
    (st : Ctrl × List Event × Bool × List Bool) (g : String) :
    Ctrl × List Event × Bool × List Bool :=
  let vr := validateFieldCtrl st.1 g (ev.getD .all)
  (vr.1, st.2.1 ++ vr.2.1, st.2.2.1 || vr.2.2.promisified,
   st.2.2.2 ++ [vr.2.2.value])

/-- `validate(fields?, eventName?)`: validates every given field (default:
all fields with validation settings), collecting `promisified` and the
per-field outcomes; the overall result is `everyTruthy` of all outcomes. -/
def validateCtrl (c : Ctrl) (fields : Option (List String))
    (ev : Option EventName) : Ctrl × List Event × MaybePromiseBool :=
  let fl := fields.getD (c.validationMap.map Prod.fst)
  let r := fl.foldl (validateStep ev) (c, [], false, [])
  (r.1, r.2.1, ⟨r.2.2.1, everyTruthy r.2.2.2⟩)

/-! ### Lemmas about rule processing -/

theorem pps_results (acc : VRAcc) (idx : Option Nat) (m : Option Message) :
    (processPassedSlot acc idx m).results = acc.results := by
  cases m <;> cases idx <;> (simp only [processPassedSlot]; split <;> rfl)

theorem pps_promisified (acc : VRAcc) (idx : Option Nat) (m : Option Message) :
    (processPassedSlot acc idx m).promisified = acc.promisified := by
  cases m <;> cases idx <;> (simp only [processPassedSlot]; split <;> rfl)

theorem pps_slot (acc : VRAcc) (idx : Option Nat) (m : Option Message) :
    slotOf (processPassedSlot acc idx m).ist idx = m := by
  cases m with
  | none =>
    cases idx with
    | none =>
      simp only [processPassedSlot]
      split
      · rfl
      · rename_i h
        cases hst : acc.ist.requiredMessage with
        | none => simp [slotOf, hst]
        | some a => rw [hst] at h; simp at h
    | some i =>
      simp only [processPassedSlot]
      split
      · simp [slotOf, rulesListOf, getPad_setPad]
      · rename_i h
        cases hst : getPad (rulesListOf acc.ist) i with
        | none => simpa [slotOf] using hst
        | some a => rw [hst] at h; simp at h
  | some msg =>
    cases idx with
    | none =>
      simp only [processPassedSlot]
      split
      · rfl
      · rename_i h
        simp only [Bool.not_eq_false] at h
        cases hst : acc.ist.requiredMessage with
        | none => rw [hst] at h; simp [shallowEqualMsg] at h
        | some a =>
          rw [hst] at h
          simp only [shallowEqualMsg, decide_eq_true_eq] at h
          simp [slotOf, hst, h]
    | some i =>
      simp only [processPassedSlot]
      split
      · simp [slotOf, rulesListOf, getPad_setPad]
      · rename_i h
        simp only [Bool.not_eq_false] at h
        cases hst : getPad (rulesListOf acc.ist) i with
        | none => rw [hst] at h; simp [shallowEqualMsg] at h
        | some a =>
          rw [hst] at h
          simp only [shallowEqualMsg, decide_eq_true_eq] at h
          simp [slotOf, hst, h]

theorem pps_slot_ne (acc : VRAcc) (idx idx' : Option Nat) (m : Option Message)
    (h : idx ≠ idx') :
    slotOf (processPassedSlot acc idx m).ist idx' = slotOf acc.ist idx' := by
  cases m with
  | none =>
    cases idx with
    | none =>
      cases idx' with
      | none => exact absurd rfl h
      | some j => simp only [processPassedSlot]; split <;> rfl
    | some i =>
      cases idx' with
      | none => simp only [processPassedSlot]; split <;> rfl
      | some j =>
        have hij : i ≠ j := by intro he; exact h (by rw [he])
        simp only [processPassedSlot]
        split
        · simp [slotOf, rulesListOf, getPad_setPad, hij]
        · rfl
  | some msg =>
    cases idx with
    | none =>
      cases idx' with
      | none => exact absurd rfl h
      | some j => simp only [processPassedSlot]; split <;> rfl
    | some i =>
      cases idx' with
      | none => simp only [processPassedSlot]; split <;> rfl
      | some j =>
        have hij : i ≠ j := by intro he; exact h (by rw [he])
        simp only [processPassedSlot]
        split
        · simp [slotOf, rulesListOf, getPad_setPad, hij]
        · rfl

theorem pps_fix (acc : VRAcc) (idx : Option Nat) (m : Option Message)
    (h : slotOf acc.ist idx = m) : processPassedSlot acc idx m = acc := by
  cases m with
  | none =>
    cases idx with
    | none =>
      simp only [processPassedSlot]
      simp only [slotOf] at h
      simp [h]
    | some i =>
      simp only [processPassedSlot]
      simp only [slotOf] at h
      simp [h]
  | some msg =>
    cases idx with
    | none =>
      simp only [processPassedSlot]
      simp only [slotOf] at h
      simp [h, shallowEqualMsg]
    | some i =>
      simp only [processPassedSlot]
      simp only [slotOf] at h
      simp [h, shallowEqualMsg]

theorem vr_results (opts : CtrlOptions) (vm : List (String × JSValue))
    (f : String) (fv : FieldValidation) (ev : EventName) (acc : VRAcc)
    (rule : Rule) (idx : Option Nat) :
    (validateRule opts vm f fv ev acc rule idx).results =
      acc.results ++
        (if ruleApplied ev (resolveRuleEventName rule fv opts) = true then
          [rulePassed vm f rule] else []) := by
  unfold validateRule
  split
  · rename_i h
    simp [h, pps_results]
  · rename_i h
    simp [h]

theorem vr_promisified (opts : CtrlOptions) (vm : List (String × JSValue))
    (f : String) (fv : FieldValidation) (ev : EventName) (acc : VRAcc)
    (rule : Rule) (idx : Option Nat) :
    (validateRule opts vm f fv ev acc rule idx).promisified =
      (acc.promisified ||
        (if ruleApplied ev (resolveRuleEventName rule fv opts) = true then
          ruleIsPromise vm f rule else false)) := by
  unfold validateRule
  split
  · rename_i h
    simp [h, pps_promisified]
  · rename_i h
    simp [h]

/-! ### Slot lemmas for repeated validation -/

theorem vr_ist (opts : CtrlOptions) (vm : List (String × JSValue)) (f : String)
    (fv : FieldValidation) (ev : EventName) (acc : VRAcc) (rule : Rule)
    (idx : Option Nat) :
    (validateRule opts vm f fv ev acc rule idx).ist =
      (if ruleApplied ev (resolveRuleEventName rule fv opts) = true then
        (processPassedSlot acc idx (ruleMessageOpt vm f rule)).ist
       else acc.ist) := by
  unfold validateRule
  split <;> simp_all

theorem vr_needUpdate (opts : CtrlOptions) (vm : List (String × JSValue))
    (f : String) (fv : FieldValidation) (ev : EventName) (acc : VRAcc)
    (rule : Rule) (idx : Option Nat) :
    (validateRule opts vm f fv ev acc rule idx).needUpdate =
      (if ruleApplied ev (resolveRuleEventName rule fv opts) = true then
        (processPassedSlot acc idx (ruleMessageOpt vm f rule)).needUpdate
       else acc.needUpdate) := by
  unfold validateRule
  split <;> simp_all

theorem vr_notApplied (opts : CtrlOptions) (vm : List (String × JSValue))
    (f : String) (fv : FieldValidation) (ev : EventName) (acc : VRAcc)
    (rule : Rule) (idx : Option Nat)
    (h : ruleApplied ev (resolveRuleEventName rule fv opts) = false) :
    validateRule opts vm f fv ev acc rule idx = acc := by
  unfold validateRule
  rw [h]
  simp

theorem vr_fix (opts : CtrlOptions) (vm : List (String × JSValue)) (f : String)
    (fv : FieldValidation) (ev : EventName) (acc : VRAcc) (rule : Rule)
    (idx : Option Nat)
    (hslot : slotOf acc.ist idx = ruleMessageOpt vm f rule) :
    (validateRule opts vm f fv ev acc rule idx).ist = acc.ist ∧
    (validateRule opts vm f fv ev acc rule idx).needUpdate = acc.needUpdate := by
  rw [vr_ist, vr_needUpdate]
  rw [pps_fix _ _ _ hslot]
  constructor <;> split <;> rfl

theorem pps_rulesSome (acc : VRAcc) (idx : Option Nat) (m : Option Message)
    (h : acc.ist.rulesMessages.isSome = true) :
    (processPassedSlot acc idx m).ist.rulesMessages.isSome = true := by
  cases m <;> cases idx <;> (simp only [processPassedSlot]; split <;> simp [h])

theorem vr_rulesSome (opts : CtrlOptions) (vm : List (String × JSValue))
    (f : String) (fv : FieldValidation) (ev : EventName) (acc : VRAcc)
    (rule : Rule) (idx : Option Nat)
    (h : acc.ist.rulesMessages.isSome = true) :
    (validateRule opts vm f fv ev acc rule idx).ist.rulesMessages.isSome = true := by
  rw [vr_ist]
  split
  · exact pps_rulesSome _ _ _ h
  · exact h

theorem loop_rulesSome (opts : CtrlOptions) (vm : List (String × JSValue))
    (f : String) (fv : FieldValidation) (ev : EventName) :
    ∀ (rules : List (Option Rule)) (i : Nat) (acc : VRAcc),
      acc.ist.rulesMessages.isSome = true →
      (validateRulesLoop opts vm f fv ev acc rules i).ist.rulesMessages.isSome = true := by
  intro rules
  induction rules with
  | nil => intro i acc h; exact h
  | cons or rest ih =>
    intro i acc h
    cases or with
    | none => exact ih _ _ h
    | some r => exact ih _ _ (vr_rulesSome _ _ _ _ _ _ _ _ h)

theorem loop_slot_none (opts : CtrlOptions) (vm : List (String × JSValue))
    (f : String) (fv : FieldValidation) (ev : EventName) :
    ∀ (rules : List (Option Rule)) (i : Nat) (acc : VRAcc),
      slotOf (validateRulesLoop opts vm f fv ev acc rules i).ist none =
        slotOf acc.ist none := by
  intro rules
  induction rules with
  | nil => intro i acc; rfl
  | cons or rest ih =>
    intro i acc
    cases or with
    | none => exact ih _ _
    | some r =>
      simp only [validateRulesLoop]
      rw [ih]
      rw [vr_ist]
      split
      · exact pps_slot_ne _ _ _ _ (by simp)
      · rfl

theorem loop_slot_lower (opts : CtrlOptions) (vm : List (String × JSValue))
    (f : String) (fv : FieldValidation) (ev : EventName) :
    ∀ (rules : List (Option Rule)) (i : Nat) (acc : VRAcc) (j : Nat), j < i →
      slotOf (validateRulesLoop opts vm f fv ev acc rules i).ist (some j) =
        slotOf acc.ist (some j) := by
  intro rules
  induction rules with
  | nil => intro i acc j hj; rfl
  | cons or rest ih =>
    intro i acc j hj
    cases or with
    | none => exact ih _ _ _ (Nat.lt_succ_of_lt hj)
    | some r =>
      simp only [validateRulesLoop]
      rw [ih _ _ _ (Nat.lt_succ_of_lt hj)]
      rw [vr_ist]
      split
      · refine pps_slot_ne _ _ _ _ ?_
        intro he
        have : i = j := by injection he
        omega
      · rfl

theorem loop_final_slots (opts : CtrlOptions) (vm : List (String × JSValue))
    (f : String) (fv : FieldValidation) (ev : EventName) :
    ∀ (rules : List (Option Rule)) (i : Nat) (acc : VRAcc) (p : Nat) (r : Rule),
      rules.get? p = some (some r) →
      ruleApplied ev (resolveRuleEventName r fv opts) = true →
      slotOf (validateRulesLoop opts vm f fv ev acc rules i).ist (some (i + p)) =
        ruleMessageOpt vm f r := by
  intro rules
  induction rules with
  | nil => intro i acc p r hp happ; simp [List.get?] at hp
  | cons or rest ih =>
    intro i acc p r hp happ
    cases p with
    | zero =>
      simp only [List.get?] at hp
      cases or with
      | none => exact absurd hp (by simp)
      | some r' =>
        have hrr : r' = r := by injection hp with h2; injection h2
        subst hrr
        simp only [validateRulesLoop, Nat.add_zero]
        rw [loop_slot_lower _ _ _ _ _ _ _ _ _ (Nat.lt_succ_self i)]
        rw [vr_ist, happ]
        simp only [if_true]
        exact pps_slot _ _ _
    | succ p' =>
      simp only [List.get?] at hp
      have harith : i + (p' + 1) = (i + 1) + p' := by omega
      rw [harith]
      cases or with
      | none => exact ih _ _ _ _ hp happ
      | some r' =>
        simp only [validateRulesLoop]
        exact ih _ _ _ _ hp happ

theorem loop_fix (opts : CtrlOptions) (vm : List (String × JSValue))
    (f : String) (fv : FieldValidation) (ev : EventName) :
    ∀ (rules : List (Option Rule)) (i : Nat) (acc : VRAcc),
      (∀ (p : Nat) (r : Rule), rules.get? p = some (some r) →
        ruleApplied ev (resolveRuleEventName r fv opts) = true →
        slotOf acc.ist (some (i + p)) = ruleMessageOpt vm f r) →
      (validateRulesLoop opts vm f fv ev acc rules i).ist = acc.ist ∧
      (validateRulesLoop opts vm f fv ev acc rules i).needUpdate = acc.needUpdate := by
  intro rules
  induction rules with
  | nil => intro i acc hyp; exact ⟨rfl, rfl⟩
  | cons or rest ih =>
    intro i acc hyp
    cases or with
    | none =>
      refine ih (i + 1) acc ?_
      intro p r hp happ
      have := hyp (p + 1) r (by simpa [List.get?] using hp) happ
      rwa [show i + (p + 1) = (i + 1) + p by omega] at this
    | some r =>
      simp only [validateRulesLoop]
      by_cases happ : ruleApplied ev (resolveRuleEventName r fv opts) = true
      · have hslot : slotOf acc.ist (some i) = ruleMessageOpt vm f r := by
          have := hyp 0 r (by simp [List.get?]) happ
          simpa using this
        obtain ⟨hist, hnu⟩ := vr_fix opts vm f fv ev acc r (some i) hslot
        have hrest := ih (i + 1) (validateRule opts vm f fv ev acc r (some i)) ?_
        · exact ⟨hrest.1.trans hist, hrest.2.trans hnu⟩
        · intro p r' hp happ'
          rw [hist]
          have := hyp (p + 1) r' (by simpa [List.get?] using hp) happ'
          rwa [show i + (p + 1) = (i + 1) + p by omega] at this
      · rw [vr_notApplied _ _ _ _ _ _ _ _ (by simpa using happ)]
        refine ih (i + 1) acc ?_
        intro p r' hp happ'
        have := hyp (p + 1) r' (by simpa [List.get?] using hp) happ'
        rwa [show i + (p + 1) = (i + 1) + p by omega] at this

theorem ist_rules_getD_self (x : InternalFieldState)
    (h : x.rulesMessages.isSome = true) :
    { x with rulesMessages := some (x.rulesMessages.getD []) } = x := by
  cases x with
  | mk rm rl cm eo wo =>
    cases rl with
    | none => simp at h
    | some l => rfl

theorem ensureInternalIn_fst_of_present (m : List (String × InternalFieldState))
    (f : String) (x : InternalFieldState) (h : mapGet m f = some x) :
    (ensureInternalIn m f).1 = m := by
  unfold ensureInternalIn
  rw [h]

theorem ufm_fst_internalStateMap (c : Ctrl) (f : String) (only : Option OnlyFlag) :
    (updateFieldMessagesCtrl c f only).1.internalStateMap =
      (ensureInternalIn c.internalStateMap f).1 := rfl

/-! ### Characterisation of `validateField` results -/

/-- The effective rule list of a field validation: the `required` constraint
as a synthetic leading rule, then the defined entries of `rules`. -/
def effectiveRules (opts : CtrlOptions) (fv : FieldValidation) : List Rule :=
  (match fv.required with
   | some req => [requiredRuleOf opts fv req]
   | none => []) ++ fv.rules.filterMap id

/-- The effective rules that apply under the given event. -/
def appliedRules (opts : CtrlOptions) (fv : FieldValidation) (ev : EventName) :
    List Rule :=
  (effectiveRules opts fv).filter
    (fun r => ruleApplied ev (resolveRuleEventName r fv opts))

/-- The boolean outcomes of the applied rules, in rule order. -/
def fieldRuleOutcomes (opts : CtrlOptions) (vm : List (String × JSValue))
    (f : String) (fv : FieldValidation) (ev : EventName) : List Bool :=
  (appliedRules opts fv ev).map (rulePassed vm f)

/-- Whether some applied rule's `validate` returned a promise. -/
def fieldHasPromise (opts : CtrlOptions) (vm : List (String × JSValue))
    (f : String) (fv : FieldValidation) (ev : EventName) : Bool :=
  (appliedRules opts fv ev).any (fun r => ruleIsPromise vm f r)

theorem loop_results (opts : CtrlOptions) (vm : List (String × JSValue))
    (f : String) (fv : FieldValidation) (ev : EventName) :
    ∀ (rules : List (Option Rule)) (i : Nat) (acc : VRAcc),
      (validateRulesLoop opts vm f fv ev acc rules i).results =
        acc.results ++
          ((rules.filterMap id).filter
            (fun r => ruleApplied ev (resolveRuleEventName r fv opts))).map
            (rulePassed vm f) := by
  intro rules
  induction rules with
  | nil => intro i acc; simp [validateRulesLoop]
  | cons or rest ih =>
    intro i acc
    cases or with
    | none => simp [validateRulesLoop, ih]
    | some r =>
      simp only [validateRulesLoop]
      rw [ih, vr_results]
      by_cases h : ruleApplied ev (resolveRuleEventName r fv opts) = true
      · simp [h, List.filter_cons]
      · simp only [Bool.not_eq_true] at h
        simp [h, List.filter_cons]

theorem loop_promisified (opts : CtrlOptions) (vm : List (String × JSValue))
    (f : String) (fv : FieldValidation) (ev : EventName) :
    ∀ (rules : List (Option Rule)) (i : Nat) (acc : VRAcc),
      (validateRulesLoop opts vm f fv ev acc rules i).promisified =
        (acc.promisified ||
          ((rules.filterMap id).filter
            (fun r => ruleApplied ev (resolveRuleEventName r fv opts))).any
            (fun r => ruleIsPromise vm f r)) := by
  intro rules
  induction rules with
  | nil => intro i acc; simp [validateRulesLoop]
  | cons or rest ih =>
    intro i acc
    cases or with
    | none => simp [validateRulesLoop, ih]
    | some r =>
      simp only [validateRulesLoop]
      rw [ih, vr_promisified]
      by_cases h : ruleApplied ev (resolveRuleEventName r fv opts) = true
      · simp [h, List.filter_cons, Bool.or_assoc]
      · simp only [Bool.not_eq_true] at h
        simp [h, List.filter_cons]

theorem vfAcc2_results (c : Ctrl) (f : String) (ev : EventName)
    (fv : FieldValidation) :
    (vfAcc2 c f ev fv).results =
      fieldRuleOutcomes c.options c.valuesMap f fv ev := by
  unfold vfAcc2 vfAcc1 fieldRuleOutcomes appliedRules effectiveRules
  cases hreq : fv.required with
  | none =>
    rw [loop_results]
    simp
  | some req =>
    rw [loop_results, vr_results]
    by_cases h : ruleApplied ev (resolveRuleEventName (requiredRuleOf c.options fv req) fv c.options) = true
    · simp [h, List.filter_cons]
    · simp only [Bool.not_eq_true] at h
      simp [h, List.filter_cons]

theorem vfAcc2_promisified (c : Ctrl) (f : String) (ev : EventName)
    (fv : FieldValidation) :
    (vfAcc2 c f ev fv).promisified =
      fieldHasPromise c.options c.valuesMap f fv ev := by
  unfold vfAcc2 vfAcc1 fieldHasPromise appliedRules effectiveRules
  cases hreq : fv.required with
  | none =>
    rw [loop_promisified]
    simp
  | some req =>
    rw [loop_promisified, vr_promisified]
    by_cases h : ruleApplied ev (resolveRuleEventName (requiredRuleOf c.options fv req) fv c.options) = true
    · simp [h, List.filter_cons]
    · simp only [Bool.not_eq_true] at h
      simp [h, List.filter_cons]

theorem validateFieldCtrl_some (c : Ctrl) (f : String) (ev : EventName)
    (fv : FieldValidation) (h : mapGet c.validationMap f = some fv) :
    validateFieldCtrl c f ev =
      (let acc2 := vfAcc2 c f ev fv
       let im := mapSet (ensureInternalIn c.internalStateMap f).1 f acc2.ist
       let c1 : Ctrl := { c with internalStateMap := im }
       if acc2.needUpdate = true then
         ((updateFieldMessagesCtrl c1 f none).1, (updateFieldMessagesCtrl c1 f none).2,
          ⟨acc2.promisified, everyTruthy acc2.results⟩)
       else (c1, [], ⟨acc2.promisified, everyTruthy acc2.results⟩)) := by
  unfold validateFieldCtrl
  rw [h]

theorem validateFieldCtrl_res (c : Ctrl) (f : String) (ev : EventName) :
    (validateFieldCtrl c f ev).2.2 =
      (match mapGet c.validationMap f with
       | none => ⟨false, true⟩
       | some fv =>
         ⟨fieldHasPromise c.options c.valuesMap f fv ev,
          everyTruthy (fieldRuleOutcomes c.options c.valuesMap f fv ev)⟩) := by
  cases h : mapGet c.validationMap f with
  | none => unfold validateFieldCtrl; rw [h]
  | some fv =>
    rw [validateFieldCtrl_some c f ev fv h]
    simp only
    split <;> simp [vfAcc2_results, vfAcc2_promisified]

theorem validateFieldCtrl_components (c : Ctrl) (f : String) (ev : EventName) :
    (validateFieldCtrl c f ev).1.options = c.options ∧
    (validateFieldCtrl c f ev).1.valuesMap = c.valuesMap ∧
    (validateFieldCtrl c f ev).1.validationMap = c.validationMap := by
  cases h : mapGet c.validationMap f with
  | none =>
    unfold validateFieldCtrl
    rw [h]
    exact ⟨rfl, rfl, rfl⟩
  | some fv =>
    rw [validateFieldCtrl_some c f ev fv h]
    simp only
    split
    · exact ⟨(ufm_components _ _ _).1, (ufm_components _ _ _).2.1,
        (ufm_components _ _ _).2.2⟩
    · exact ⟨rfl, rfl, rfl⟩

theorem everyTruthy_map {α : Type} (g : α → Bool) (l : List α) :
    everyTruthy (l.map g) = l.all g := by
  induction l with
  | nil => rfl
  | cons a t ih =>
    simp only [List.map_cons, everyTruthy, List.all_cons] at ih ⊢
    rw [ih]

theorem validate_fold_spec (opts : CtrlOptions) (vm : List (String × JSValue))
    (valm : List (String × FieldValidation)) (ev : Option EventName) :
    ∀ (fl : List String) (st : Ctrl × List Event × Bool × List Bool),
      st.1.options = opts → st.1.valuesMap = vm → st.1.validationMap = valm →
      ((fl.foldl (validateStep ev) st).2.2.1 =
        (st.2.2.1 || fl.any (fun g =>
          match mapGet valm g with
          | none => false
          | some fv => fieldHasPromise opts vm g fv (ev.getD .all)))) ∧
      ((fl.foldl (validateStep ev) st).2.2.2 =
        st.2.2.2 ++ fl.map (fun g =>
          match mapGet valm g with
          | none => true
          | some fv => everyTruthy (fieldRuleOutcomes opts vm g fv (ev.getD .all)))) := by
  intro fl
  induction fl with
  | nil =>
    intro st h1 h2 h3
    simp
  | cons g rest ih =>
    intro st h1 h2 h3
    rw [List.foldl_cons]
    have hcomp := validateFieldCtrl_components st.1 g (ev.getD .all)
    have hstep1 : (validateStep ev st g).1.options = opts := by
      rw [validateStep, hcomp.1, h1]
    have hstep2 : (validateStep ev st g).1.valuesMap = vm := by
      rw [validateStep, hcomp.2.1, h2]
    have hstep3 : (validateStep ev st g).1.validationMap = valm := by
      rw [validateStep, hcomp.2.2, h3]
    have hres := validateFieldCtrl_res st.1 g (ev.getD .all)
    rw [h1, h2, h3] at hres
    obtain ⟨ihp, ihv⟩ := ih (validateStep ev st g) hstep1 hstep2 hstep3
    constructor
    · rw [ihp]
      show ((st.2.2.1 || (validateFieldCtrl st.1 g (ev.getD .all)).2.2.promisified) || _) = _
      rw [hres]
      cases hg : mapGet valm g <;> simp [hg, Bool.or_assoc]
    · rw [ihv]
      show (st.2.2.2 ++ [(validateFieldCtrl st.1 g (ev.getD .all)).2.2.value]) ++ _ = _
      rw [hres]
      cases hg : mapGet valm g <;> simp [hg]

/-! ### Claim theorems C2, C6 -/

/-- Claim C2: a rule evaluated by `validateField` with an event other than
`'all'` is applied iff its effective trigger (resolved as `rule.eventName`,
else the field validation's `eventName`, else the form's
`validationEventName`, else the default `'onBlur'`) is `'all'`, equals the
event, or the event is `'onTouch'` while the trigger is `'onChange'`; with
event `'all'` every rule applies.  The second conjunct ties the guard to
`validateRule`: a rule contributes a result exactly when applied.  The last
conjuncts instantiate the routing examples: an `'onChange'` rule fires under
`'onTouch'`, an `'onBlur'` rule fires under neither `'onTouch'` nor
`'onChange'`. -/
theorem claim_c2 :
    (∀ ev r : EventName,
      ruleApplied ev r = true ↔
        (ev = .all ∨ r = .all ∨ r = ev ∨ (ev = .onTouch ∧ r = .onChange))) ∧
    (∀ (opts : CtrlOptions) (vm : List (String × JSValue)) (f : String)
        (fv : FieldValidation) (ev : EventName) (acc : VRAcc) (rule : Rule)
        (idx : Option Nat),
      (validateRule opts vm f fv ev acc rule idx).results =
        acc.results ++
          (if ruleApplied ev (resolveRuleEventName rule fv opts) = true then
            [rulePassed vm f rule] else [])) ∧
    (∀ (fv : FieldValidation) (opts : CtrlOptions) (msg : Option String)
        (t tip : Option MsgType) (vf : Option (JSValue → Option (List (String × JSValue)) → VResult))
        (nmv : Option NeedMore),
      ruleApplied .onTouch
        (resolveRuleEventName ⟨msg, t, tip, vf, nmv, some .onChange⟩ fv opts) = true ∧
      ruleApplied .onTouch
        (resolveRuleEventName ⟨msg, t, tip, vf, nmv, some .onBlur⟩ fv opts) = false ∧
      ruleApplied .onChange
        (resolveRuleEventName ⟨msg, t, tip, vf, nmv, some .onBlur⟩ fv opts) = false) := by
  refine ⟨?_, vr_results, ?_⟩
  · intro ev r
    cases ev <;> cases r <;> decide
  · intro fv opts msg t tip vf nmv
    exact ⟨rfl, rfl, rfl⟩

/-- Claim C6: for an applied rule whose `validate` is absent, throws
synchronously, or returns a rejecting promise, the outcome is `false` and a
failure message `{ message: rule.message, type: rule.type || 'error' }` is
written to the rule's slot.  The embedding of the `try`/`catch` and
`.catch(() => false)` as total functions reflects that no exception or
rejection reaches the caller of `validateField`. -/
theorem claim_c6 (opts : CtrlOptions) (vm : List (String × JSValue))
    (f : String) (fv : FieldValidation) (ev : EventName) (acc : VRAcc)
    (rule : Rule) (idx : Option Nat)
    (hfail : rule.validate = none ∨ ruleCallResult vm f rule = .thrown ∨
      ruleCallResult vm f rule = .asyncThrown)
    (happ : ruleApplied ev (resolveRuleEventName rule fv opts) = true) :
    (validateRule opts vm f fv ev acc rule idx).results = acc.results ++ [false] ∧
    slotOf (validateRule opts vm f fv ev acc rule idx).ist idx =
      some { message := rule.message, type := some (rule.type.getD .error) } := by
  have hpassed : rulePassed vm f rule = false := by
    rcases hfail with h | h | h
    · unfold rulePassed ruleCallResult
      rw [h]
    · unfold rulePassed
      rw [h]
    · unfold rulePassed
      rw [h]
  have hmsg : ruleMessageOpt vm f rule =
      some { message := rule.message, type := some (rule.type.getD .error) } := by
    unfold ruleMessageOpt
    rw [hpassed]
    simp
  constructor
  · rw [vr_results, happ]
    simp [hpassed]
  · unfold validateRule
    rw [happ]
    simp only [if_true]
    rw [← hmsg]
    exact pps_slot _ _ _

/-- Concrete instantiation of claim C6: a rule with no `validate` function,
applied under event `'all'`, yields outcome `false` and stores the default
error message in the `'required'` slot. -/
theorem claim_c6_witness :
    (validateRule {} [] "a" {} .all ⟨emptyInternalFieldState, false, false, []⟩ {} none).results = [false] ∧
    slotOf (validateRule {} [] "a" {} .all ⟨emptyInternalFieldState, false, false, []⟩ {} none).ist none =
      some { message := none, type := some MsgType.error } := by
  have h := claim_c6 {} [] "a" {} .all ⟨emptyInternalFieldState, false, false, []⟩ {} none
    (Or.inl rfl) rfl
  simpa using h

/-- Claim C3: `validate(fields?, eventName?)` is promisified (returns a
promise rather than a plain boolean) exactly when some applied rule of some
validated field returned a promise; the (resolved) boolean is the AND
(`everyTruthy`) of all applied rule outcomes across all validated fields;
and a field with no validation settings contributes `true` (third conjunct:
`validateField` returns `true` immediately with no state change, here for
any controller with an empty validation map). -/
theorem claim_c3 (c : Ctrl) (fields : Option (List String))
    (ev : Option EventName) :
    ((validateCtrl c fields ev).2.2.promisified =
      (fields.getD (c.validationMap.map Prod.fst)).any (fun g =>
        match mapGet c.validationMap g with
        | none => false
        | some fv => fieldHasPromise c.options c.valuesMap g fv (ev.getD .all))) ∧
    ((validateCtrl c fields ev).2.2.value =
      (fields.getD (c.validationMap.map Prod.fst)).all (fun g =>
        match mapGet c.validationMap g with
        | none => true
        | some fv =>
          everyTruthy (fieldRuleOutcomes c.options c.valuesMap g fv (ev.getD .all)))) ∧
    (∀ (opts : CtrlOptions) (vm : List (String × JSValue))
        (sm : List (String × FieldState)) (im : List (String × InternalFieldState))
        (g : String) (ev' : EventName),
      validateFieldCtrl ⟨opts, vm, sm, im, []⟩ g ev' =
        (⟨opts, vm, sm, im, []⟩, [], ⟨false, true⟩)) := by
  obtain ⟨hp, hv⟩ := validate_fold_spec c.options c.valuesMap c.validationMap ev
    (fields.getD (c.validationMap.map Prod.fst)) (c, [], false, []) rfl rfl rfl
  refine ⟨?_, ?_, ?_⟩
  · unfold validateCtrl
    simpa using hp
  · unfold validateCtrl
    simp only
    rw [hv]
    simp only [List.nil_append]
    exact everyTruthy_map _ _
  · intro opts vm sm im g ev'
    rfl

/-- Claim C4: running `validateField` twice in succession with the same event
name on an unchanged value store (the model is deterministic, so rule
outcomes and messages are identical between the runs) leaves the controller
state of the first run entirely unchanged, fires no messages/error/warning
notification in the second run, and returns the same result: every slot
already holds a message `shallowEqual` to the recomputed one, so `needUpdate`
stays `false` and `_updateFieldMessages` is never invoked — in particular
`fieldState.messages` is not rebuilt, which models its reference equality
across the two runs. -/
theorem claim_c4 (c : Ctrl) (f : String) (ev : EventName) :
    validateFieldCtrl (validateFieldCtrl c f ev).1 f ev =
      ((validateFieldCtrl c f ev).1, [], (validateFieldCtrl c f ev).2.2) := by
  cases hfv : mapGet c.validationMap f with
  | none =>
    have h1 : validateFieldCtrl c f ev = (c, [], ⟨false, true⟩) := by
      unfold validateFieldCtrl
      rw [hfv]
    rw [h1]
    exact h1
  | some fv =>
    have hcomp := validateFieldCtrl_components c f ev
    have hfv1 : mapGet (validateFieldCtrl c f ev).1.validationMap f = some fv := by
      rw [hcomp.2.2, hfv]
    have hstate1 : (validateFieldCtrl c f ev).1.internalStateMap =
        mapSet (ensureInternalIn c.internalStateMap f).1 f (vfAcc2 c f ev fv).ist := by
      rw [validateFieldCtrl_some c f ev fv hfv]
      simp only
      split
      · rw [ufm_fst_internalStateMap]
        exact ensureInternalIn_fst_of_present _ _ _ (mapGet_mapSet_self _ _ _)
      · rfl
    have hget1 : mapGet (validateFieldCtrl c f ev).1.internalStateMap f =
        some (vfAcc2 c f ev fv).ist := by
      rw [hstate1]
      exact mapGet_mapSet_self _ _ _
    have hrulesSome : (vfAcc2 c f ev fv).ist.rulesMessages.isSome = true := by
      unfold vfAcc2
      apply loop_rulesSome
      unfold vfAcc1
      cases hreq : fv.required with
      | none => simp
      | some req =>
        apply vr_rulesSome
        simp
    have hslots : ∀ (p : Nat) (r : Rule), fv.rules.get? p = some (some r) →
        ruleApplied ev (resolveRuleEventName r fv c.options) = true →
        slotOf (vfAcc2 c f ev fv).ist (some p) = ruleMessageOpt c.valuesMap f r := by
      intro p r hp happ
      have h := loop_final_slots c.options c.valuesMap f fv ev fv.rules 0
        (vfAcc1 c f ev fv) p r hp happ
      simpa using h
    have hreqslot : ∀ req, fv.required = some req →
        ruleApplied ev (resolveRuleEventName (requiredRuleOf c.options fv req) fv c.options) = true →
        slotOf (vfAcc2 c f ev fv).ist none =
          ruleMessageOpt c.valuesMap f (requiredRuleOf c.options fv req) := by
      intro req hreq happ
      unfold vfAcc2
      rw [loop_slot_none]
      unfold vfAcc1
      rw [hreq]
      simp only
      rw [vr_ist, happ]
      simp only [if_pos]
      exact pps_slot _ _ _
    have hacc1 : (vfAcc1 (validateFieldCtrl c f ev).1 f ev fv).ist = (vfAcc2 c f ev fv).ist ∧
        (vfAcc1 (validateFieldCtrl c f ev).1 f ev fv).needUpdate = false := by
      unfold vfAcc1
      simp only [ensureInternalIn_snd, hget1, Option.getD_some,
        ist_rules_getD_self _ hrulesSome, hcomp.1, hcomp.2.1]
      cases hreq : fv.required with
      | none => exact ⟨rfl, rfl⟩
      | some req =>
        simp only
        by_cases happ : ruleApplied ev (resolveRuleEventName (requiredRuleOf c.options fv req) fv c.options) = true
        · exact vr_fix c.options c.valuesMap f fv ev
            ⟨(vfAcc2 c f ev fv).ist, false, false, []⟩
            (requiredRuleOf c.options fv req) none (hreqslot req hreq happ)
        · rw [vr_notApplied _ _ _ _ _ _ _ _ (by simpa using happ)]
          exact ⟨rfl, rfl⟩
    have hist2 : (vfAcc2 (validateFieldCtrl c f ev).1 f ev fv).ist = (vfAcc2 c f ev fv).ist ∧
        (vfAcc2 (validateFieldCtrl c f ev).1 f ev fv).needUpdate = false := by
      unfold vfAcc2
      simp only [hcomp.1, hcomp.2.1]
      have h := loop_fix c.options c.valuesMap f fv ev fv.rules 0
        (vfAcc1 (validateFieldCtrl c f ev).1 f ev fv) ?_
      · exact ⟨h.1.trans hacc1.1, h.2.trans hacc1.2⟩
      · intro p r hp happ
        rw [hacc1.1]
        simpa using hslots p r hp happ
    have hprom2 : (vfAcc2 (validateFieldCtrl c f ev).1 f ev fv).promisified =
        (vfAcc2 c f ev fv).promisified := by
      rw [vfAcc2_promisified, vfAcc2_promisified, hcomp.1, hcomp.2.1]
    have hresults2 : (vfAcc2 (validateFieldCtrl c f ev).1 f ev fv).results =
        (vfAcc2 c f ev fv).results := by
      rw [vfAcc2_results, vfAcc2_results, hcomp.1, hcomp.2.1]
    have hres1 : (validateFieldCtrl c f ev).2.2 =
        ⟨(vfAcc2 c f ev fv).promisified, everyTruthy (vfAcc2 c f ev fv).results⟩ := by
      rw [validateFieldCtrl_some c f ev fv hfv]
      simp only
      split <;> rfl
    rw [validateFieldCtrl_some (validateFieldCtrl c f ev).1 f ev fv hfv1]
    simp only
    rw [if_neg (by rw [hist2.2]; exact Bool.false_ne_true)]
    rw [hres1]
    simp only [Prod.mk.injEq]
    refine ⟨?_, trivial, ?_⟩
    · rw [hist2.1, ensureInternalIn_fst_of_present _ _ _ hget1,
        mapSet_self _ _ _ hget1]
    · rw [hprom2, hresults2]

/-! ### Value setters (`setValue` and the post-change pipeline) -/

/-- `FormValuesSetterOptions`. -/
structure SetterOptions where
  byUser : Bool := false
  skipChangeUpdate : Bool := false
  skipValidation : Bool := false

/-- `_setValue`: write the value unconditionally (the DOM write is outside
the model), then `_onValueChange`, which notifies only when the new value is
not `Object.is`-identical to the old. -/
def setValueInner (c : Ctrl) (f : String) (v : JSValue) : Ctrl × List Event :=
  let prevValue := getValue c.valuesMap f
  let c1 := { c with valuesMap := mapSet c.valuesMap f v }
  (c1, if jsIs v prevValue = true then [] else [Event.valueChange f v prevValue])

/-- `_processValueChange`: increment `changed` (with `touched` for
user-attributed changes) unless suppressed, then validate with `'onTouch'`
for user changes and `'onChange'` otherwise, unless suppressed. -/
def processValueChange (c : Ctrl) (f : String) (options : Option SetterOptions) :
    Ctrl × List Event :=
  match options with
  | some o =>
    let c1 := if o.skipChangeUpdate then c else incrementChanged c f o.byUser
    if o.skipValidation then (c1, [])
    else
      let r := validateFieldCtrl c1 f (if o.byUser then .onTouch else .onChange)
      (r.1, r.2.1)
  | none =>
    let c1 := incrementChanged c f false
    let r := validateFieldCtrl c1 f .onChange
    (r.1, r.2.1)

/-- `setValue(field, value, options?)`. -/
def setValue (c : Ctrl) (f : String) (v : JSValue) (options : Option SetterOptions) :
    Ctrl × List Event :=
  let r1 := setValueInner c f v
  let r2 := processValueChange r1.1 f options
  (r2.1, r1.2 ++ r2.2)

theorem validateFieldCtrl_events (c : Ctrl) (f : String) (ev : EventName) :
    ∀ e ∈ (validateFieldCtrl c f ev).2.1, e.isValueChange = false := by
  cases h : mapGet c.validationMap f with
  | none =>
    have h1 : validateFieldCtrl c f ev = (c, [], ⟨false, true⟩) := by
      unfold validateFieldCtrl
      rw [h]
    rw [h1]
    intro e he
    simp at he
  | some fv =>
    rw [validateFieldCtrl_some c f ev fv h]
    simp only
    split
    · exact ufm_events_not_value _ _ _
    · intro e he
      simp at he

theorem validateFieldCtrl_stateMap (c : Ctrl) (f : String) (ev : EventName) :
    ∀ g, fieldStateOf (validateFieldCtrl c f ev).1 g = fieldStateOf c g ∨
      ∃ ist, fieldStateOf (validateFieldCtrl c f ev).1 g =
        updateFieldMessagesCore ist (fieldStateOf c g) none := by
  intro g
  cases h : mapGet c.validationMap f with
  | none =>
    left
    have h1 : validateFieldCtrl c f ev = (c, [], ⟨false, true⟩) := by
      unfold validateFieldCtrl
      rw [h]
    rw [h1]
  | some fv =>
    rw [validateFieldCtrl_some c f ev fv h]
    simp only
    split
    · by_cases hg : f = g
      · subst hg
        right
        rw [ufm_fieldState_at]
        exact ⟨_, rfl⟩
      · left
        rw [ufm_fieldState_ne _ _ _ _ hg]
        rfl
    · left
      rfl

theorem validateFieldCtrl_counters (c : Ctrl) (f : String) (ev : EventName)
    (g : String) :
    (fieldStateOf (validateFieldCtrl c f ev).1 g).touched =
      (fieldStateOf c g).touched ∧
    (fieldStateOf (validateFieldCtrl c f ev).1 g).changed =
      (fieldStateOf c g).changed ∧
    (fieldStateOf (validateFieldCtrl c f ev).1 g).blurred =
      (fieldStateOf c g).blurred := by
  rcases validateFieldCtrl_stateMap c f ev g with h | ⟨ist, h⟩
  · rw [h]
    exact ⟨rfl, rfl, rfl⟩
  · rw [h]
    exact updateFieldMessagesCore_counters _ _ _

theorem incrementChanged_fieldState_at (c : Ctrl) (f : String) (b : Bool) :
    fieldStateOf (incrementChanged c f b) f =
      { fieldStateOf c f with
          changed := (fieldStateOf c f).changed + 1,
          touched := (fieldStateOf c f).touched + (if b then 1 else 0) } := by
  unfold incrementChanged fieldStateOf
  simp [mapGet_mapSet_self, ensureFieldStateIn_snd]

theorem processValueChange_valuesMap (c : Ctrl) (f : String)
    (o : Option SetterOptions) :
    (processValueChange c f o).1.valuesMap = c.valuesMap := by
  unfold processValueChange
  cases o with
  | none => exact (validateFieldCtrl_components _ _ _).2.1
  | some o =>
    simp only
    split
    · split <;> rfl
    · rename_i hskip
      split
      · exact (validateFieldCtrl_components _ _ _).2.1
      · exact (validateFieldCtrl_components _ _ _).2.1

theorem processValueChange_events (c : Ctrl) (f : String)
    (o : Option SetterOptions) :
    ∀ e ∈ (processValueChange c f o).2, e.isValueChange = false := by
  unfold processValueChange
  cases o with
  | none => exact validateFieldCtrl_events _ _ _
  | some o =>
    simp only
    split
    · intro e he
      simp at he
    · exact validateFieldCtrl_events _ _ _

theorem processValueChange_changed (c : Ctrl) (f : String)
    (o : Option SetterOptions) :
    (fieldStateOf (processValueChange c f o).1 f).changed =
      (fieldStateOf c f).changed +
        (match o with
         | none => 1
         | some o => if o.skipChangeUpdate then 0 else 1) := by
  unfold processValueChange
  cases o with
  | none =>
    simp only
    rw [(validateFieldCtrl_counters _ _ _ _).2.1, incrementChanged_fieldState_at]
  | some o =>
    cases hs : o.skipChangeUpdate <;> cases hsv : o.skipValidation <;>
      simp [hs, hsv, (validateFieldCtrl_counters _ _ _ _).2.1,
        incrementChanged_fieldState_at]

/-- Claim C7: `setValue(f, v)` with the stored value already `Object.is`-
identical to `v` still writes the value, fires no value-change notification,
and still increments the field's `changed` counter by exactly one — unless
`skipChangeUpdate` suppresses the increment. -/
theorem claim_c7 (c : Ctrl) (f : String) (v : JSValue)
    (opts : Option SetterOptions)
    (h : jsIs (getValue c.valuesMap f) v = true) :
    mapGet (setValue c f v opts).1.valuesMap f = some v ∧
    (∀ e ∈ (setValue c f v opts).2, e.isValueChange = false) ∧
    (fieldStateOf (setValue c f v opts).1 f).changed =
      (fieldStateOf c f).changed +
        (match opts with
         | none => 1
         | some o => if o.skipChangeUpdate then 0 else 1) := by
  have hv : jsIs v (getValue c.valuesMap f) = true := by
    unfold jsIs at h ⊢
    have := of_decide_eq_true h
    simp [this]
  refine ⟨?_, ?_, ?_⟩
  · show mapGet (processValueChange (setValueInner c f v).1 f opts).1.valuesMap f = some v
    rw [processValueChange_valuesMap]
    exact mapGet_mapSet_self _ _ _
  · intro e he
    simp only [setValue] at he
    rw [List.mem_append] at he
    rcases he with he | he
    · simp only [setValueInner, hv, if_true] at he
      simp at he
    · exact processValueChange_events _ _ _ e he
  · show (fieldStateOf (processValueChange (setValueInner c f v).1 f opts).1 f).changed = _
    rw [processValueChange_changed]
    rfl

/-- Concrete instantiation of claim C7: redundant `setValue` of the stored
value `1` writes the value, emits no value-change notification, and bumps
`changed` from `0` to `1`. -/
def c7ctrl : Ctrl :=
  { options := {}, valuesMap := [("a", JSValue.jsNum 1)], stateMap := [],
    internalStateMap := [], validationMap := [] }

theorem claim_c7_witness :
    jsIs (getValue c7ctrl.valuesMap "a") (JSValue.jsNum 1) = true ∧
    mapGet (setValue c7ctrl "a" (JSValue.jsNum 1) none).1.valuesMap "a" =
      some (JSValue.jsNum 1) ∧
    ((setValue c7ctrl "a" (JSValue.jsNum 1) none).2.all
      (fun e => !e.isValueChange)) = true ∧
    (fieldStateOf (setValue c7ctrl "a" (JSValue.jsNum 1) none).1 "a").changed =
      (fieldStateOf c7ctrl "a").changed + 1 := by
  have h := claim_c7 c7ctrl "a" (JSValue.jsNum 1) none rfl
  refine ⟨rfl, h.1, ?_, h.2.2⟩
  rw [List.all_eq_true]
  intro e he
  have := h.2.1 e he
  simp [this]

/-! ### `resetValues` as an action trace -/

/-- Atomic steps of `_clearValues`/`_resetValues`, recording value-store
mutations and notifications in execution order. -/
inductive Action where
  | clearAllValues
  | writeValue (field : String) (value : JSValue)
  | notify (e : Event)
deriving DecidableEq, Repr

def Action.isNotify : Action → Bool
  | .notify _ => true
  | _ => false

/-- `_clearValues`: clear the map, then one `_onValueChange(field, undefined,
value)` per previously present field (which fires only when the old value was
not itself `undefined`).  Returns the fields that had values. -/
def clearValuesInner (c : Ctrl) : Ctrl × List Action × List String :=
  let prev := c.valuesMap
  ({ c with valuesMap := [] },
   Action.clearAllValues ::
     prev.filterMap (fun p =>
       if jsIs JSValue.undef p.2 = true then none
       else some (Action.notify (Event.valueChange p.1 .undef p.2))),
   prev.map Prod.fst)

/-- `_resetValues(newValues = options.defaultValues)` (lines 705-741 of
`class.ts`): snapshot old values, clear, write all new values, then notify —
first the old fields absent from `newValues` (new value `undefined`), then
every `newValues` field against its old value.  Each unique field is
notified at most once; `uniqFields` collects old-only fields then new
fields.  `newValues` is an object, so its keys are assumed unique.
This is the non-null branch of `_resetValues`. -/
def resetValuesBody (c : Ctrl) (nv : List (String × JSValue)) :
    Ctrl × List Action × List String :=
  let prevValuesMap := c.valuesMap
  let vm := nv.foldl (fun m p => mapSet m p.1 p.2) ([] : List (String × JSValue))
  let writes := Action.clearAllValues :: nv.map (fun p => Action.writeValue p.1 p.2)
  let removed := prevValuesMap.filter (fun p => (mapGet nv p.1).isNone)
  let removedActs := removed.filterMap (fun p =>
    if jsIs JSValue.undef p.2 = true then none
    else some (Action.notify (Event.valueChange p.1 .undef p.2)))
  let newActs := nv.filterMap (fun p =>
    if jsIs p.2 (getValue prevValuesMap p.1) = true then none
    else some (Action.notify (Event.valueChange p.1 p.2 (getValue prevValuesMap p.1))))
  ({ c with valuesMap := vm }, writes ++ removedActs ++ newActs,
   removed.map Prod.fst ++ nv.map Prod.fst)

def resetValuesInner (c : Ctrl)
    (newValues : Option (List (String × JSValue))) :
    Ctrl × List Action × List String :=
  match newValues with
  | some nv => resetValuesBody c nv
  | none =>
    match c.options.defaultValues with
    | some nv => resetValuesBody c nv
    | none => clearValuesInner c

/-- `_processValuesChange`: the post-change pipeline once per field. -/
def processValuesChange (c : Ctrl) (fields : List String)
    (options : Option SetterOptions) : Ctrl × List Event :=
  fields.foldl
    (fun (st : Ctrl × List Event) g =>
      let r := processValueChange st.1 g options
      (r.1, st.2 ++ r.2)) (c, [])

/-- `resetValues(newValues?, options?)`: `_resetValues` followed by the
post-change pipeline over the unique fields (whose notifications are
validation events, appended to the trace as `notify` actions). -/
def resetValues (c : Ctrl) (newValues : Option (List (String × JSValue)))
    (options : Option SetterOptions) : Ctrl × List Action :=
  let r := resetValuesInner c newValues
  let pr := processValuesChange r.1 r.2.2 options
  (pr.1, r.2.1 ++ pr.2.map Action.notify)

/-- The value-change notifications for a given field within a trace. -/
def valueChangesFor (tr : List Action) (f : String) : List Action :=
  tr.filter (fun a =>
    match a with
    | .notify (.valueChange g _ _) => decide (g = f)
    | _ => false)

/-- Once a notification has been emitted, no further value-store mutation
appears in the trace. -/
def noWritesAfterNotify : List Action → Bool
  | [] => true
  | .notify _ :: rest => rest.all Action.isNotify
  | _ :: rest => noWritesAfterNotify rest

/-- Claim C8 fails as stated on a field present in both the old and new
value sets with an identical value: the change notification is suppressed by
the `Object.is` check, so such a field fires zero notifications, not exactly
one. -/
def c8ctrl : Ctrl :=
  { options := {}, valuesMap := [("a", JSValue.jsNum 1)], stateMap := [],
    internalStateMap := [], validationMap := [] }

/-- Claim C8 counterexample: `resetValues` over old values `{a: 1}` with new
values `{a: 1}` fires no value-change notification for `a`, not exactly
one. -/
theorem claim_c8_counterexample :
    ¬(valueChangesFor
        (resetValues c8ctrl (some [("a", JSValue.jsNum 1)]) none).2 "a").length = 1 := by
  decide

/-! ### Lemmas for the amended C8 -/

/-- The entries of an association list carrying a given key. -/
def keyEntries (l : List (String × JSValue)) (g : String) :
    List (String × JSValue) :=
  l.filter (fun p => decide (p.1 = g))

theorem keyEntries_of_get_none (g : String) :
    ∀ l : List (String × JSValue), mapGet l g = none → keyEntries l g = [] := by
  intro l
  induction l with
  | nil => intro h; rfl
  | cons p rest ih =>
    intro h
    obtain ⟨k, v⟩ := p
    by_cases hk : k = g
    · subst hk
      simp [mapGet] at h
    · simp only [mapGet, if_neg hk] at h
      simp only [keyEntries] at ih ⊢
      rw [List.filter_cons, if_neg (by simpa using hk)]
      exact ih h

theorem keyEntries_of_get_some (g : String) (w : JSValue) :
    ∀ l : List (String × JSValue), (l.map Prod.fst).Nodup →
      mapGet l g = some w → keyEntries l g = [(g, w)] := by
  intro l
  induction l with
  | nil => intro _ h; simp [mapGet] at h
  | cons p rest ih =>
    intro hnd h
    obtain ⟨k, v⟩ := p
    simp only [List.map_cons, List.nodup_cons] at hnd
    by_cases hk : k = g
    · subst hk
      simp only [mapGet, if_pos rfl] at h
      injection h with h
      subst h
      have hrest : mapGet rest k = none := by
        cases hr : mapGet rest k with
        | none => rfl
        | some w2 =>
          exfalso
          apply hnd.1
          clear ih hnd
          induction rest with
          | nil => simp [mapGet] at hr
          | cons q rest2 ih2 =>
            obtain ⟨k2, v2⟩ := q
            by_cases hk2 : k2 = k
            · subst hk2
              simp
            · simp only [mapGet, if_neg hk2] at hr
              simp [ih2 hr]
      have hre := keyEntries_of_get_none k rest hrest
      simp only [keyEntries] at hre ⊢
      rw [List.filter_cons, if_pos (by simp), hre]
    · simp only [mapGet, if_neg hk] at h
      have hih := ih hnd.2 h
      simp only [keyEntries] at hih ⊢
      rw [List.filter_cons, if_neg (by simpa using hk)]
      exact hih

theorem keyEntries_filter (B : String × JSValue → Bool) (g : String) :
    ∀ l : List (String × JSValue),
      keyEntries (l.filter B) g = (keyEntries l g).filter B := by
  intro l
  induction l with
  | nil => rfl
  | cons p rest ih =>
    simp only [keyEntries] at ih ⊢
    simp only [List.filter_cons]
    by_cases hB : B p = true <;> by_cases hk : p.1 = g <;>
      simp [hB, hk, List.filter_cons, ih]

theorem nodup_keys_filter (B : String × JSValue → Bool)
    (l : List (String × JSValue)) (h : (l.map Prod.fst).Nodup) :
    ((l.filter B).map Prod.fst).Nodup :=
  List.Nodup.sublist ((List.filter_sublist l).map Prod.fst) h

theorem mapGet_of_keyEntries (l : List (String × JSValue)) (g : String)
    (w : JSValue) (h : keyEntries l g = [(g, w)]) : mapGet l g = some w := by
  induction l with
  | nil => simp [keyEntries] at h
  | cons p rest ih =>
    obtain ⟨k, v⟩ := p
    by_cases hk : k = g
    · subst hk
      simp only [keyEntries] at h
      rw [List.filter_cons, if_pos (by simp)] at h
      injection h with h1 h2
      injection h1 with _ hv
      simp [mapGet, hv]
    · simp only [keyEntries, List.filter_cons] at h
      rw [if_neg (by simpa using hk)] at h
      simp only [mapGet, if_neg hk]
      exact ih h

theorem vcf_filterMap (mk : String × JSValue → Option Action)
    (hmk : ∀ p, mk p = none ∨
      ∃ x y, mk p = some (Action.notify (Event.valueChange p.1 x y))) :
    ∀ (l : List (String × JSValue)) (g : String),
      valueChangesFor (l.filterMap mk) g = (keyEntries l g).filterMap mk := by
  intro l
  induction l with
  | nil => intro g; rfl
  | cons p rest ih =>
    intro g
    rcases hmk p with h | ⟨x, y, h⟩
    · by_cases hk : p.1 = g <;>
        simp [valueChangesFor, keyEntries, List.filterMap_cons, List.filter_cons,
          h, hk] at ih ⊢ <;>
          simpa [valueChangesFor, keyEntries] using ih g
    · by_cases hk : p.1 = g <;>
        simp [valueChangesFor, keyEntries, List.filterMap_cons, List.filter_cons,
          h, hk] at ih ⊢ <;>
          simpa [valueChangesFor, keyEntries] using ih g

theorem vcf_writes (nv : List (String × JSValue)) (g : String) :
    valueChangesFor
      (Action.clearAllValues :: nv.map (fun p => Action.writeValue p.1 p.2)) g = [] := by
  simp only [valueChangesFor, List.filter_cons]
  rw [if_neg (by simp)]
  induction nv with
  | nil => rfl
  | cons p rest ih =>
    simp only [List.map_cons, List.filter_cons]
    rw [if_neg (by simp)]
    exact ih

theorem vcf_map_notify (evs : List Event) (g : String)
    (h : ∀ e ∈ evs, e.isValueChange = false) :
    valueChangesFor (evs.map Action.notify) g = [] := by
  induction evs with
  | nil => rfl
  | cons e rest ih =>
    have he := h e (by simp)
    simp only [List.map_cons, valueChangesFor, List.filter_cons]
    rw [if_neg ?_]
    · exact ih (fun e2 h2 => h e2 (by simp [h2]))
    · cases e <;> simp_all [Event.isValueChange]

theorem processValuesChange_events (o : Option SetterOptions) :
    ∀ (fields : List String) (st : Ctrl × List Event),
      (∀ e ∈ st.2, e.isValueChange = false) →
      ∀ e ∈ (fields.foldl
        (fun (st : Ctrl × List Event) g =>
          let r := processValueChange st.1 g o
          (r.1, st.2 ++ r.2)) st).2, e.isValueChange = false := by
  intro fields
  induction fields with
  | nil => intro st h; exact h
  | cons g rest ih =>
    intro st h
    rw [List.foldl_cons]
    refine ih _ ?_
    intro e he
    simp only [List.mem_append] at he
    rcases he with he | he
    · exact h e he
    · exact processValueChange_events _ _ _ e he

theorem all_notify_filterMap (mk : String × JSValue → Option Action)
    (hmk : ∀ p, mk p = none ∨
      ∃ x y, mk p = some (Action.notify (Event.valueChange p.1 x y)))
    (l : List (String × JSValue)) :
    (l.filterMap mk).all Action.isNotify = true := by
  induction l with
  | nil => rfl
  | cons p rest ih =>
    rcases hmk p with h | ⟨x, y, h⟩
    · simpa [List.filterMap_cons, h] using ih
    · simpa [List.filterMap_cons, h, Action.isNotify] using ih

theorem nwan_of_all_notify : ∀ l : List Action, l.all Action.isNotify = true →
    noWritesAfterNotify l = true := by
  intro l
  cases l with
  | nil => intro h; rfl
  | cons a rest =>
    intro h
    simp only [List.all_cons, Bool.and_eq_true] at h
    cases a with
    | notify e => simpa [noWritesAfterNotify] using h.2
    | clearAllValues => simp [Action.isNotify] at h
    | writeValue f v => simp [Action.isNotify] at h

theorem nwan_writes (rest : List Action) :
    ∀ nv : List (String × JSValue),
      noWritesAfterNotify
        (Action.clearAllValues :: nv.map (fun p => Action.writeValue p.1 p.2) ++ rest) =
        noWritesAfterNotify rest := by
  intro nv
  induction nv with
  | nil => rfl
  | cons p tl ih => simpa [noWritesAfterNotify] using ih

/-- The `mk` shape of the removed-field notifications. -/
theorem hmk_clear : ∀ p : String × JSValue,
    (if jsIs JSValue.undef p.2 = true then none
     else some (Action.notify (Event.valueChange p.1 .undef p.2))) = none ∨
    ∃ x y, (if jsIs JSValue.undef p.2 = true then none
     else some (Action.notify (Event.valueChange p.1 .undef p.2))) =
      some (Action.notify (Event.valueChange p.1 x y)) := by
  intro p
  split
  · exact Or.inl rfl
  · exact Or.inr ⟨_, _, rfl⟩

/-- The `mk` shape of the new-values notifications. -/
theorem hmk_new (vm : List (String × JSValue)) : ∀ p : String × JSValue,
    (if jsIs p.2 (getValue vm p.1) = true then none
     else some (Action.notify (Event.valueChange p.1 p.2 (getValue vm p.1)))) = none ∨
    ∃ x y, (if jsIs p.2 (getValue vm p.1) = true then none
     else some (Action.notify (Event.valueChange p.1 p.2 (getValue vm p.1)))) =
      some (Action.notify (Event.valueChange p.1 x y)) := by
  intro p
  split
  · exact Or.inl rfl
  · exact Or.inr ⟨_, _, rfl⟩

theorem vcf_append (l1 l2 : List Action) (g : String) :
    valueChangesFor (l1 ++ l2) g = valueChangesFor l1 g ++ valueChangesFor l2 g := by
  simp [valueChangesFor, List.filter_append]

theorem all_notify_map (evs : List Event) :
    (evs.map Action.notify).all Action.isNotify = true := by
  induction evs with
  | nil => rfl
  | cons e rest ih => simp [Action.isNotify, ih]

theorem processValuesChange_events2 (c : Ctrl) (fields : List String)
    (o : Option SetterOptions) :
    ∀ e ∈ (processValuesChange c fields o).2, e.isValueChange = false := by
  unfold processValuesChange
  refine processValuesChange_events o fields (c, []) ?_
  intro e he
  simp at he

theorem resetValues_trace (c : Ctrl) (nv : List (String × JSValue)) :
    (resetValues c (some nv) none).2 =
      (Action.clearAllValues :: nv.map (fun p => Action.writeValue p.1 p.2)) ++
        (c.valuesMap.filter (fun p => (mapGet nv p.1).isNone)).filterMap (fun p =>
          if jsIs JSValue.undef p.2 = true then none
          else some (Action.notify (Event.valueChange p.1 .undef p.2))) ++
        nv.filterMap (fun p =>
          if jsIs p.2 (getValue c.valuesMap p.1) = true then none
          else some (Action.notify (Event.valueChange p.1 p.2 (getValue c.valuesMap p.1)))) ++
        (processValuesChange (resetValuesInner c (some nv)).1
          (resetValuesInner c (some nv)).2.2 none).2.map Action.notify := by
  unfold resetValues resetValuesInner resetValuesBody
  rfl

/-- Claim C8 amended: in `resetValues(newValues)`, every unique field fires
at most one value-change notification — exactly one when the new value
differs from the old under `Object.is` (for fields of `newValues`, with the
old stored value as `prevValue`; for removed fields, with new value
`undefined`, hence none at all when the old value was itself `undefined`) —
and all value-store mutations precede all notifications in the execution
trace. -/
theorem claim_c8_amended (c : Ctrl) (nv : List (String × JSValue))
    (hold : (c.valuesMap.map Prod.fst).Nodup)
    (hnew : (nv.map Prod.fst).Nodup) :
    (∀ (g : String) (w : JSValue), mapGet nv g = some w →
      valueChangesFor (resetValues c (some nv) none).2 g =
        (if jsIs w (getValue c.valuesMap g) = true then []
         else [Action.notify (Event.valueChange g w (getValue c.valuesMap g))])) ∧
    (∀ (g : String) (w : JSValue), mapGet nv g = none →
      mapGet c.valuesMap g = some w →
      valueChangesFor (resetValues c (some nv) none).2 g =
        (if jsIs JSValue.undef w = true then []
         else [Action.notify (Event.valueChange g JSValue.undef w)])) ∧
    noWritesAfterNotify (resetValues c (some nv) none).2 = true := by
  have hwr : ∀ g, valueChangesFor
      (Action.clearAllValues :: nv.map (fun p => Action.writeValue p.1 p.2)) g = [] :=
    fun g => vcf_writes nv g
  have hpn : ∀ g, valueChangesFor
      ((processValuesChange (resetValuesInner c (some nv)).1
        (resetValuesInner c (some nv)).2.2 none).2.map Action.notify) g = [] :=
    fun g => vcf_map_notify _ g (processValuesChange_events2 _ _ _)
  refine ⟨?_, ?_, ?_⟩
  · intro g w hw
    rw [resetValues_trace]
    rw [vcf_append, vcf_append, vcf_append, hwr, hpn,
      vcf_filterMap _ hmk_clear, vcf_filterMap _ (hmk_new c.valuesMap),
      keyEntries_filter, keyEntries_of_get_some g w nv hnew hw]
    have hclr : (keyEntries c.valuesMap g).filter
        (fun p => (mapGet nv p.1).isNone) = [] := by
      cases hcg : mapGet c.valuesMap g with
      | none => rw [keyEntries_of_get_none g _ hcg]; rfl
      | some w0 =>
        rw [keyEntries_of_get_some g w0 _ hold hcg, List.filter_cons,
          if_neg (by simp [hw])]
        rfl
    rw [hclr]
    cases hjs : jsIs w (getValue c.valuesMap g) <;>
      simp [hjs, List.filterMap_cons]
  · intro g w hng hcg
    rw [resetValues_trace]
    rw [vcf_append, vcf_append, vcf_append, hwr, hpn,
      vcf_filterMap _ hmk_clear, vcf_filterMap _ (hmk_new c.valuesMap),
      keyEntries_filter, keyEntries_of_get_none g nv hng,
      keyEntries_of_get_some g w _ hold hcg, List.filter_cons,
      if_pos (by simp [hng])]
    cases hjs : jsIs JSValue.undef w <;>
      simp [hjs, List.filterMap_cons]
  · rw [resetValues_trace]
    simp only [List.append_assoc]
    rw [nwan_writes]
    apply nwan_of_all_notify
    simp only [List.all_append, Bool.and_eq_true]
    refine ⟨all_notify_filterMap _ hmk_clear _, all_notify_filterMap _ (hmk_new c.valuesMap) _,
      all_notify_map _⟩

/-- Concrete instantiation of the amended claim C8: old values
`{a: 1, b: 2}`, new values `{b: 3, c: 4}` — the field `b` present in both
sets fires exactly one notification (from `2` to `3`), the removed field `a`
fires exactly one notification to `undefined`, and all writes precede all
notifications. -/
def c8ctrl2 : Ctrl :=
  { options := {}, valuesMap := [("a", JSValue.jsNum 1), ("b", JSValue.jsNum 2)],
    stateMap := [], internalStateMap := [], validationMap := [] }

theorem claim_c8_amended_witness :
    valueChangesFor
      (resetValues c8ctrl2 (some [("b", JSValue.jsNum 3), ("c", JSValue.jsNum 4)]) none).2 "b" =
      [Action.notify (Event.valueChange "b" (JSValue.jsNum 3) (JSValue.jsNum 2))] ∧
    valueChangesFor
      (resetValues c8ctrl2 (some [("b", JSValue.jsNum 3), ("c", JSValue.jsNum 4)]) none).2 "a" =
      [Action.notify (Event.valueChange "a" JSValue.undef (JSValue.jsNum 1))] ∧
    noWritesAfterNotify
      (resetValues c8ctrl2 (some [("b", JSValue.jsNum 3), ("c", JSValue.jsNum 4)]) none).2 = true := by
  have h := claim_c8_amended c8ctrl2 [("b", JSValue.jsNum 3), ("c", JSValue.jsNum 4)]
    (by decide) (by decide)
  exact ⟨h.1 "b" (JSValue.jsNum 3) rfl, h.2.1 "a" (JSValue.jsNum 1) rfl rfl, h.2.2⟩

/-! ### The remaining public surface and the touched/changed invariant
(claim C10) -/

/-- The `notify` events of an action trace. -/
def actionEvents (l : List Action) : List Event :=
  l.filterMap (fun a => match a with | .notify e => some e | _ => none)

/-- `getFieldState(field)`: `_ensureFieldState` (inserting an empty state
when absent) and return it. -/
def getFieldStateCtrl (c : Ctrl) (f : String) : Ctrl × FieldState :=
  let e := ensureFieldStateIn c.stateMap f
  ({ c with stateMap := e.1 }, e.2)

/-- `clearFieldState(field)`: drop the internal and public state entries,
then fire the three change notifications against the empty state — only
when a state was stored, and each gated by its `Object.is` check (empty
`messages`/`error`/`warning` are `null`/`false`/`false`). -/
def clearFieldStateCtrl (c : Ctrl) (f : String) : Ctrl × List Event :=
  let prev := mapGet c.stateMap f
  let sm := mapRemove c.stateMap f
  let im := mapRemove c.internalStateMap f
  ({ c with stateMap := sm, internalStateMap := im },
   match prev with
   | none => []
   | some fs =>
     (if fs.messages ≠ none then [Event.messagesChange f none fs.messages] else []) ++
     (if fs.error ≠ false then [Event.errorChange f false fs.error] else []) ++
     (if fs.warning ≠ false then [Event.warningChange f false fs.warning] else []))

/-- `clearState()`: notify each stored field state against the empty one,
then clear both state maps. -/
def clearStateCtrl (c : Ctrl) : Ctrl × List Event :=
  ({ c with stateMap := [], internalStateMap := [] },
   c.stateMap.foldl (fun evs p =>
     evs ++
     (if p.2.messages ≠ none then [Event.messagesChange p.1 none p.2.messages] else []) ++
     (if p.2.error ≠ false then [Event.errorChange p.1 false p.2.error] else []) ++
     (if p.2.warning ≠ false then [Event.warningChange p.1 false p.2.warning] else [])) [])

/-- `clear()`: `clearState` then `_clearValues` (no change pipeline). -/
def clearCtrl (c : Ctrl) : Ctrl × List Event :=
  let r1 := clearStateCtrl c
  let r2 := clearValuesInner r1.1
  (r2.1, r1.2 ++ actionEvents r2.2.1)

/-- `reset(newValues?)`: `clearState` then `_resetValues` (no change
pipeline). -/
def resetCtrl (c : Ctrl) (nv : Option (List (String × JSValue))) :
    Ctrl × List Event :=
  let r1 := clearStateCtrl c
  let r2 := resetValuesInner r1.1 nv
  (r2.1, r1.2 ++ actionEvents r2.2.1)

/-- `_setValues(newValues)`: write every entry, then one `_onValueChange`
per entry after all writes.  The keys of a JS object are unique, so the
previous value recorded before each write is the originally stored one.
Returns the written fields. -/
def setValuesInner (c : Ctrl) (nv : List (String × JSValue)) :
    Ctrl × List Event × List String :=
  ({ c with valuesMap := nv.foldl (fun m p => mapSet m p.1 p.2) c.valuesMap },
   nv.filterMap (fun p =>
     if jsIs p.2 (getValue c.valuesMap p.1) = true then none
     else some (Event.valueChange p.1 p.2 (getValue c.valuesMap p.1))),
   nv.map Prod.fst)

/-- `setValues(values, options?)`: `_setValues` then the change pipeline
over the written fields. -/
def setValuesCtrl (c : Ctrl) (nv : List (String × JSValue))
    (options : Option SetterOptions) : Ctrl × List Event :=
  let r := setValuesInner c nv
  let pr := processValuesChange r.1 r.2.2 options
  (pr.1, r.2.1 ++ pr.2)

/-- `clearValues(options?)`: `_clearValues` then the change pipeline over
the fields that had values. -/
def clearValuesCtrl (c : Ctrl) (options : Option SetterOptions) :
    Ctrl × List Event :=
  let r := clearValuesInner c
  let pr := processValuesChange r.1 r.2.2 options
  (pr.1, actionEvents r.2.1 ++ pr.2)

/-- `handleBlur(field)`: increment `blurred`, validate with `'onBlur'`. -/
def handleBlurCtrl (c : Ctrl) (f : String) : Ctrl × List Event :=
  let c1 := incrementBlurred c f
  let r := validateFieldCtrl c1 f .onBlur
  (r.1, r.2.1)

/-- `_handleInput(field, element)` with the extracted element value passed
as `v` (`handleInput` delegates here whenever an element is available):
write the value, `_onValueChange`, `incrementChanged(field, true)`, validate
with `'onTouch'`. -/
def handleInputCtrl (c : Ctrl) (f : String) (v : JSValue) : Ctrl × List Event :=
  let prevValue := getValue c.valuesMap f
  let c1 := { c with valuesMap := mapSet c.valuesMap f v }
  let ev1 := if jsIs v prevValue = true then [] else [Event.valueChange f v prevValue]
  let c2 := incrementChanged c1 f true
  let r := validateFieldCtrl c2 f .onTouch
  (r.1, ev1 ++ r.2.1)

/-- `clearMessages(fields?)`: `clearFieldMessages` for each given field
(default: every field with an internal state). -/
def clearMessagesCtrl (c : Ctrl) (fields : Option (List String)) :
    Ctrl × List Event :=
  (fields.getD (c.internalStateMap.map Prod.fst)).foldl
    (fun st g =>
      let r := clearFieldMessages st.1 g
      (r.1, st.2 ++ r.2)) (c, [])

/-- `clearValidationMessages(fields?)`. -/
def clearValidationMessagesCtrl (c : Ctrl) (fields : Option (List String)) :
    Ctrl × List Event :=
  (fields.getD (c.internalStateMap.map Prod.fst)).foldl
    (fun st g =>
      let r := clearFieldValidationMessages st.1 g
      (r.1, st.2 ++ r.2)) (c, [])

/-- `clearCustomMessages(fields?)`. -/
def clearCustomMessagesCtrl (c : Ctrl) (fields : Option (List String)) :
    Ctrl × List Event :=
  (fields.getD (c.internalStateMap.map Prod.fst)).foldl
    (fun st g =>
      let r := clearFieldCustomMessages st.1 g
      (r.1, st.2 ++ r.2)) (c, [])

/-- `_ensureFieldValidation` on the raw validation map. -/
def ensureFieldValidationIn (m : List (String × FieldValidation)) (f : String) :
    List (String × FieldValidation) × FieldValidation :=
  match mapGet m f with
  | some fv => (m, fv)
  | none => (mapSet m f {}, {})

/-- `addFieldValidationRules(field, rules)`: ensure the settings, default
`rules` to `[]` and append (no validation-message drop). -/
def addFieldValidationRulesCtrl (c : Ctrl) (f : String)
    (rules : List (Option Rule)) : Ctrl :=
  let e := ensureFieldValidationIn c.validationMap f
  { c with validationMap := mapSet e.1 f { e.2 with rules := e.2.rules ++ rules } }

/-- `clearFieldValidation(field)`: delete the settings, then clear the
field's validation messages. -/
def clearFieldValidationCtrl (c : Ctrl) (f : String) : Ctrl × List Event :=
  clearFieldValidationMessages
    { c with validationMap := mapRemove c.validationMap f } f

/-- A `Partial<FormFieldValidation>`: a present (`some`) entry overwrites
the corresponding setting under `Object.assign`, an absent key (`none`)
leaves it. -/
structure PartialFieldValidation where
  eventName : Option (Option EventName) := none
  rules : Option (List (Option Rule)) := none
  required : Option (Option RequiredConfig) := none
  requiredValidate : Option (Option (JSValue → VResult)) := none

/-- `Object.assign(fieldValidation, partialFieldValidation)`. -/
def assignFieldValidation (fv : FieldValidation) (p : PartialFieldValidation) :
    FieldValidation :=
  { eventName := p.eventName.getD fv.eventName
    rules := p.rules.getD fv.rules
    required := p.required.getD fv.required
    requiredValidate := p.requiredValidate.getD fv.requiredValidate }

/-- `setFieldValidation(field, partial)`: `Object.assign` onto the ensured
settings, then clear the field's validation messages. -/
def setFieldValidationCtrl (c : Ctrl) (f : String) (p : PartialFieldValidation) :
    Ctrl × List Event :=
  let e := ensureFieldValidationIn c.validationMap f
  clearFieldValidationMessages
    { c with validationMap := mapSet e.1 f (assignFieldValidation e.2 p) } f

/-- `resetFieldValidation(field, fieldValidation)`: override the settings,
then clear the field's validation messages. -/
def resetFieldValidationCtrl (c : Ctrl) (f : String) (fv : FieldValidation) :
    Ctrl × List Event :=
  clearFieldValidationMessages
    { c with validationMap := mapSet c.validationMap f fv } f

/-- `clearValidation()`: clear all settings, then clear validation messages
of the fields that had settings. -/
def clearValidationCtrl (c : Ctrl) : Ctrl × List Event :=
  let fields := c.validationMap.map Prod.fst
  clearValidationMessagesCtrl { c with validationMap := [] } (some fields)

/-- `setValidation(someFieldsValidation)`: override the given settings, then
clear validation messages of those fields (entries of a JS object are never
falsy, so no field is skipped in the model). -/
def setValidationCtrl (c : Ctrl) (vs : List (String × FieldValidation)) :
    Ctrl × List Event :=
  let vm := vs.foldl (fun m p => mapSet m p.1 p.2) c.validationMap
  clearValidationMessagesCtrl { c with validationMap := vm }
    (some (vs.map Prod.fst))

/-- `resetValidation(allFieldsValidation)`: drop all settings, set the given
ones, then clear validation messages of every field with an internal
state. -/
def resetValidationCtrl (c : Ctrl) (vs : List (String × FieldValidation)) :
    Ctrl × List Event :=
  let vm := vs.foldl (fun m p => mapSet m p.1 p.2)
    ([] : List (String × FieldValidation))
  clearValidationMessagesCtrl { c with validationMap := vm } none

/-- The `FormCtrl` constructor: empty maps, then `setValidation(validation)`
when given, then `_setValues({...defaultValues, ...values})` when either is
given (`register`, the DOM and the instance holder are outside the
model). -/
def mkCtrl (options : CtrlOptions)
    (validation : Option (List (String × FieldValidation)))
    (values : Option (List (String × JSValue))) : Ctrl :=
  let c0 := emptyCtrl options
  let c1 := match validation with
    | some vs => (setValidationCtrl c0 vs).1
    | none => c0
  if values.isSome || options.defaultValues.isSome then
    (setValuesInner c1 ((values.getD []).foldl (fun m p => mapSet m p.1 p.2)
      ((options.defaultValues.getD []).foldl (fun m p => mapSet m p.1 p.2) []))).1
  else c1

/-- One public operation of the `FormCtrl` surface; arguments the caller or
the DOM would supply appear as payload. -/
inductive Op where
  | setValue (f : String) (v : JSValue) (o : Option SetterOptions)
  | setValues (nv : List (String × JSValue)) (o : Option SetterOptions)
  | clearValues (o : Option SetterOptions)
  | resetValues (nv : Option (List (String × JSValue))) (o : Option SetterOptions)
  | validateField (f : String) (ev : EventName)
  | validate (fields : Option (List String)) (ev : Option EventName)
  | incrementChanged (f : String) (byUser : Bool)
  | incrementBlurred (f : String)
  | handleBlur (f : String)
  | handleInput (f : String) (v : JSValue)
  | getFieldState (f : String)
  | clearFieldState (f : String)
  | clearState
  | clear
  | reset (nv : Option (List (String × JSValue)))
  | forceFieldError (f : String) (b : Bool)
  | forceFieldWarning (f : String) (b : Bool)
  | unforceFieldError (f : String)
  | unforceFieldWarning (f : String)
  | clearFieldMessages (f : String)
  | clearFieldValidationMessages (f : String)
  | clearFieldCustomMessages (f : String)
  | addFieldCustomMessages (f : String) (msgs : List Message)
  | resetFieldCustomMessages (f : String) (msgs : List Message)
  | clearMessages (fields : Option (List String))
  | clearValidationMessages (fields : Option (List String))
  | clearCustomMessages (fields : Option (List String))
  | addFieldValidationRules (f : String) (rules : List (Option Rule))
  | clearFieldValidation (f : String)
  | setFieldValidation (f : String) (p : PartialFieldValidation)
  | resetFieldValidation (f : String) (fv : FieldValidation)
  | clearValidation
  | setValidation (vs : List (String × FieldValidation))
  | resetValidation (vs : List (String × FieldValidation))

/-- Apply one public operation to the controller (notifications and return
values discarded). -/
def stepOp (c : Ctrl) : Op → Ctrl
  | .setValue f v o => (setValue c f v o).1
  | .setValues nv o => (setValuesCtrl c nv o).1
  | .clearValues o => (clearValuesCtrl c o).1
  | .resetValues nv o => (resetValues c nv o).1
  | .validateField f ev => (validateFieldCtrl c f ev).1
  | .validate fields ev => (validateCtrl c fields ev).1
  | .incrementChanged f byUser => incrementChanged c f byUser
  | .incrementBlurred f => incrementBlurred c f
  | .handleBlur f => (handleBlurCtrl c f).1
  | .handleInput f v => (handleInputCtrl c f v).1
  | .getFieldState f => (getFieldStateCtrl c f).1
  | .clearFieldState f => (clearFieldStateCtrl c f).1
  | .clearState => (clearStateCtrl c).1
  | .clear => (clearCtrl c).1
  | .reset nv => (resetCtrl c nv).1
  | .forceFieldError f b => (forceFieldError c f b).1
  | .forceFieldWarning f b => (forceFieldWarning c f b).1
  | .unforceFieldError f => (unforceFieldError c f).1
  | .unforceFieldWarning f => (unforceFieldWarning c f).1
  | .clearFieldMessages f => (clearFieldMessages c f).1
  | .clearFieldValidationMessages f => (clearFieldValidationMessages c f).1
  | .clearFieldCustomMessages f => (clearFieldCustomMessages c f).1
  | .addFieldCustomMessages f msgs => (addFieldCustomMessages c f msgs).1
  | .resetFieldCustomMessages f msgs => (resetFieldCustomMessages c f msgs).1
  | .clearMessages fields => (clearMessagesCtrl c fields).1
  | .clearValidationMessages fields => (clearValidationMessagesCtrl c fields).1
  | .clearCustomMessages fields => (clearCustomMessagesCtrl c fields).1
  | .addFieldValidationRules f rules => addFieldValidationRulesCtrl c f rules
  | .clearFieldValidation f => (clearFieldValidationCtrl c f).1
  | .setFieldValidation f p => (setFieldValidationCtrl c f p).1
  | .resetFieldValidation f fv => (resetFieldValidationCtrl c f fv).1
  | .clearValidation => (clearValidationCtrl c).1
  | .setValidation vs => (setValidationCtrl c vs).1
  | .resetValidation vs => (resetValidationCtrl c vs).1

/-- A sequence of public operations. -/
def applyOps (c : Ctrl) (ops : List Op) : Ctrl := ops.foldl stepOp c

/-- The entry-wise counter invariant: every stored field state has
`touched ≤ changed`. -/
def stateOk (m : List (String × FieldState)) : Prop :=
  ∀ p ∈ m, p.2.touched ≤ p.2.changed

/-- The invariant on a controller. -/
def InvE (c : Ctrl) : Prop := stateOk c.stateMap

theorem mapGet_mem {α : Type} (m : List (String × α)) (k : String) (v : α)
    (h : mapGet m k = some v) : (k, v) ∈ m := by
  induction m with
  | nil => simp [mapGet] at h
  | cons p rest ih =>
    obtain ⟨k', v'⟩ := p
    by_cases hk : k' = k
    · subst hk
      simp only [mapGet, if_pos rfl] at h
      injection h with h
      simp [h]
    · simp only [mapGet, if_neg hk] at h
      exact List.mem_cons_of_mem _ (ih h)

theorem mem_mapSet {α : Type} (m : List (String × α)) (k : String) (v : α)
    (p : String × α) (h : p ∈ mapSet m k v) : p ∈ m ∨ p.2 = v := by
  induction m with
  | nil =>
    right
    simp [mapSet] at h
    rw [h]
  | cons q rest ih =>
    obtain ⟨k', v'⟩ := q
    by_cases hk : k' = k
    · subst hk
      simp [mapSet] at h
      rcases h with h1 | h1
      · right
        rw [h1]
      · left
        exact List.mem_cons_of_mem _ h1
    · simp [mapSet, hk] at h
      rcases h with h1 | h1
      · left
        simp [h1]
      · rcases ih h1 with h2 | h2
        · left
          exact List.mem_cons_of_mem _ h2
        · right
          exact h2

theorem mem_mapRemove {α : Type} (m : List (String × α)) (k : String)
    (p : String × α) (h : p ∈ mapRemove m k) : p ∈ m := by
  induction m with
  | nil => simp [mapRemove] at h
  | cons q rest ih =>
    obtain ⟨k', v'⟩ := q
    by_cases hk : k' = k
    · simp only [mapRemove, if_pos hk] at h
      exact List.mem_cons_of_mem _ h
    · simp only [mapRemove, if_neg hk, List.mem_cons] at h
      rcases h with h | h
      · simp [h]
      · exact List.mem_cons_of_mem _ (ih h)

theorem stateOk_getD (m : List (String × FieldState)) (hm : stateOk m)
    (g : String) :
    ((mapGet m g).getD emptyFieldState).touched ≤
      ((mapGet m g).getD emptyFieldState).changed := by
  cases h : mapGet m g with
  | none => exact Nat.le_refl 0
  | some fs => exact hm (g, fs) (mapGet_mem _ _ _ h)

theorem stateOk_mapSet (m : List (String × FieldState)) (k : String)
    (fs : FieldState) (hm : stateOk m) (hfs : fs.touched ≤ fs.changed) :
    stateOk (mapSet m k fs) := by
  intro p hp
  rcases mem_mapSet _ _ _ _ hp with h | h
  · exact hm p h
  · rw [h]
    exact hfs

theorem stateOk_ensure (m : List (String × FieldState)) (f : String)
    (hm : stateOk m) : stateOk (ensureFieldStateIn m f).1 := by
  unfold ensureFieldStateIn
  cases h : mapGet m f with
  | some fs => exact hm
  | none => exact stateOk_mapSet m f emptyFieldState hm (Nat.le_refl 0)

theorem stateOk_mapRemove (m : List (String × FieldState)) (k : String)
    (hm : stateOk m) : stateOk (mapRemove m k) :=
  fun p hp => hm p (mem_mapRemove _ _ _ hp)

theorem InvE_of_stateMap {c c' : Ctrl} (h : c'.stateMap = c.stateMap)
    (hi : InvE c) : InvE c' := by
  unfold InvE
  rw [h]
  exact hi

theorem InvE_ufm (c : Ctrl) (f : String) (o : Option OnlyFlag) (h : InvE c) :
    InvE (updateFieldMessagesCtrl c f o).1 := by
  have hsm : (updateFieldMessagesCtrl c f o).1.stateMap =
      mapSet (ensureFieldStateIn c.stateMap f).1 f
        (updateFieldMessagesCore (ensureInternalIn c.internalStateMap f).2
          (ensureFieldStateIn c.stateMap f).2 o) := rfl
  unfold InvE
  rw [hsm]
  apply stateOk_mapSet _ _ _ (stateOk_ensure _ _ h)
  have hc := updateFieldMessagesCore_counters
    (ensureInternalIn c.internalStateMap f).2 (ensureFieldStateIn c.stateMap f).2 o
  rw [hc.1, hc.2.1, ensureFieldStateIn_snd]
  exact stateOk_getD _ h f

theorem InvE_vfc (c : Ctrl) (f : String) (ev : EventName) (h : InvE c) :
    InvE (validateFieldCtrl c f ev).1 := by
  cases hv : mapGet c.validationMap f with
  | none =>
    have h1 : validateFieldCtrl c f ev = (c, [], ⟨false, true⟩) := by
      unfold validateFieldCtrl
      rw [hv]
    rw [h1]
    exact h
  | some fv =>
    rw [validateFieldCtrl_some c f ev fv hv]
    simp only
    split
    · exact InvE_ufm _ f none h
    · exact h

theorem InvE_incrementChanged (c : Ctrl) (f : String) (b : Bool)
    (h : InvE c) : InvE (incrementChanged c f b) := by
  intro p hp
  rcases mem_mapSet _ _ _ _ hp with hin | heq
  · exact stateOk_ensure _ _ h p hin
  · rw [heq]
    have h0 : (ensureFieldStateIn c.stateMap f).2.touched ≤
        (ensureFieldStateIn c.stateMap f).2.changed := by
      rw [ensureFieldStateIn_snd]
      exact stateOk_getD _ h f
    show (ensureFieldStateIn c.stateMap f).2.touched + (if b then 1 else 0) ≤
      (ensureFieldStateIn c.stateMap f).2.changed + 1
    cases b <;> simp <;> omega

theorem InvE_incrementBlurred (c : Ctrl) (f : String) (h : InvE c) :
    InvE (incrementBlurred c f) := by
  intro p hp
  rcases mem_mapSet _ _ _ _ hp with hin | heq
  · exact stateOk_ensure _ _ h p hin
  · rw [heq]
    show (ensureFieldStateIn c.stateMap f).2.touched ≤
      (ensureFieldStateIn c.stateMap f).2.changed
    rw [ensureFieldStateIn_snd]
    exact stateOk_getD _ h f

theorem InvE_forceFieldError (c : Ctrl) (f : String) (err : Bool)
    (h : InvE c) : InvE (forceFieldError c f err).1 := by
  intro p hp
  rcases mem_mapSet _ _ _ _ hp with hin | heq
  · exact stateOk_ensure _ _ h p hin
  · rw [heq]
    show (ensureFieldStateIn c.stateMap f).2.touched ≤
      (ensureFieldStateIn c.stateMap f).2.changed
    rw [ensureFieldStateIn_snd]
    exact stateOk_getD _ h f

theorem InvE_forceFieldWarning (c : Ctrl) (f : String) (w : Bool)
    (h : InvE c) : InvE (forceFieldWarning c f w).1 := by
  intro p hp
  rcases mem_mapSet _ _ _ _ hp with hin | heq
  · exact stateOk_ensure _ _ h p hin
  · rw [heq]
    show (ensureFieldStateIn c.stateMap f).2.touched ≤
      (ensureFieldStateIn c.stateMap f).2.changed
    rw [ensureFieldStateIn_snd]
    exact stateOk_getD _ h f

theorem InvE_unforceFieldError (c : Ctrl) (f : String) (h : InvE c) :
    InvE (unforceFieldError c f).1 := by
  unfold unforceFieldError
  cases hm : mapGet c.internalStateMap f with
  | none => exact h
  | some ist => exact InvE_ufm _ f (some .onlyError) h

theorem InvE_unforceFieldWarning (c : Ctrl) (f : String) (h : InvE c) :
    InvE (unforceFieldWarning c f).1 := by
  unfold unforceFieldWarning
  cases hm : mapGet c.internalStateMap f with
  | none => exact h
  | some ist => exact InvE_ufm _ f (some .onlyWarning) h

theorem InvE_clearFieldMessages (c : Ctrl) (f : String) (h : InvE c) :
    InvE (clearFieldMessages c f).1 := by
  unfold clearFieldMessages
  cases hm : mapGet c.internalStateMap f with
  | none => exact h
  | some ist => exact InvE_ufm _ f none h

theorem InvE_clearFieldValidationMessages (c : Ctrl) (f : String)
    (h : InvE c) : InvE (clearFieldValidationMessages c f).1 := by
  unfold clearFieldValidationMessages
  cases hm : mapGet c.internalStateMap f with
  | none => exact h
  | some ist => exact InvE_ufm _ f none h

theorem InvE_clearFieldCustomMessages (c : Ctrl) (f : String) (h : InvE c) :
    InvE (clearFieldCustomMessages c f).1 := by
  unfold clearFieldCustomMessages
  cases hm : mapGet c.internalStateMap f with
  | none => exact h
  | some ist => exact InvE_ufm _ f none h

theorem InvE_addFieldCustomMessages (c : Ctrl) (f : String)
    (msgs : List Message) (h : InvE c) :
    InvE (addFieldCustomMessages c f msgs).1 :=
  InvE_ufm _ f none h

theorem InvE_resetFieldCustomMessages (c : Ctrl) (f : String)
    (msgs : List Message) (h : InvE c) :
    InvE (resetFieldCustomMessages c f msgs).1 :=
  InvE_ufm _ f none h

theorem InvE_foldl {σ α : Type} (proj : σ → Ctrl) (step : σ → α → σ)
    (h : ∀ st a, InvE (proj st) → InvE (proj (step st a))) :
    ∀ (l : List α) (st : σ), InvE (proj st) → InvE (proj (l.foldl step st)) := by
  intro l
  induction l with
  | nil => exact fun st hst => hst
  | cons a rest ih =>
    intro st hst
    rw [List.foldl_cons]
    exact ih _ (h st a hst)

theorem InvE_processValueChange (c : Ctrl) (f : String)
    (o : Option SetterOptions) (h : InvE c) :
    InvE (processValueChange c f o).1 := by
  unfold processValueChange
  cases o with
  | none => exact InvE_vfc _ f .onChange (InvE_incrementChanged c f false h)
  | some o =>
    have hc1 : InvE (if o.skipChangeUpdate = true then c
        else incrementChanged c f o.byUser) := by
      split
      · exact h
      · exact InvE_incrementChanged c f o.byUser h
    simp only
    split
    · exact hc1
    · exact InvE_vfc _ f _ hc1

theorem InvE_processValuesChange (c : Ctrl) (fields : List String)
    (o : Option SetterOptions) (h : InvE c) :
    InvE (processValuesChange c fields o).1 :=
  InvE_foldl Prod.fst
    (fun (st : Ctrl × List Event) g =>
      let r := processValueChange st.1 g o
      (r.1, st.2 ++ r.2))
    (fun st g hst => InvE_processValueChange st.1 g o hst) fields (c, []) h

theorem InvE_setValue (c : Ctrl) (f : String) (v : JSValue)
    (o : Option SetterOptions) (h : InvE c) : InvE (setValue c f v o).1 :=
  InvE_processValueChange _ f o (InvE_of_stateMap rfl h)

theorem InvE_setValuesCtrl (c : Ctrl) (nv : List (String × JSValue))
    (o : Option SetterOptions) (h : InvE c) : InvE (setValuesCtrl c nv o).1 :=
  InvE_processValuesChange _ _ o (InvE_of_stateMap rfl h)

theorem InvE_clearValuesCtrl (c : Ctrl) (o : Option SetterOptions)
    (h : InvE c) : InvE (clearValuesCtrl c o).1 :=
  InvE_processValuesChange _ _ o (InvE_of_stateMap rfl h)

theorem resetValuesInner_stateMap (c : Ctrl)
    (nv : Option (List (String × JSValue))) :
    (resetValuesInner c nv).1.stateMap = c.stateMap := by
  unfold resetValuesInner resetValuesBody clearValuesInner
  cases nv with
  | some v => rfl
  | none => cases c.options.defaultValues <;> rfl

theorem InvE_resetValues (c : Ctrl) (nv : Option (List (String × JSValue)))
    (o : Option SetterOptions) (h : InvE c) : InvE (resetValues c nv o).1 :=
  InvE_processValuesChange _ _ o
    (InvE_of_stateMap (resetValuesInner_stateMap c nv) h)

theorem InvE_validateCtrl (c : Ctrl) (fields : Option (List String))
    (ev : Option EventName) (h : InvE c) : InvE (validateCtrl c fields ev).1 :=
  InvE_foldl Prod.fst (validateStep ev)
    (fun st g hst => InvE_vfc st.1 g (ev.getD .all) hst)
    (fields.getD (c.validationMap.map Prod.fst)) (c, [], false, []) h

theorem InvE_handleBlur (c : Ctrl) (f : String) (h : InvE c) :
    InvE (handleBlurCtrl c f).1 :=
  InvE_vfc _ f .onBlur (InvE_incrementBlurred c f h)

theorem InvE_handleInput (c : Ctrl) (f : String) (v : JSValue) (h : InvE c) :
    InvE (handleInputCtrl c f v).1 :=
  InvE_vfc _ f .onTouch
    (InvE_incrementChanged { c with valuesMap := mapSet c.valuesMap f v } f true
      (InvE_of_stateMap rfl h))

theorem InvE_getFieldState (c : Ctrl) (f : String) (h : InvE c) :
    InvE (getFieldStateCtrl c f).1 :=
  stateOk_ensure c.stateMap f h

theorem InvE_clearFieldState (c : Ctrl) (f : String) (h : InvE c) :
    InvE (clearFieldStateCtrl c f).1 :=
  stateOk_mapRemove c.stateMap f h

theorem InvE_clearState (c : Ctrl) (_h : InvE c) : InvE (clearStateCtrl c).1 :=
  fun p hp => absurd hp (List.not_mem_nil p)

theorem InvE_clear (c : Ctrl) (h : InvE c) : InvE (clearCtrl c).1 :=
  InvE_of_stateMap rfl (InvE_clearState c h)

theorem InvE_reset (c : Ctrl) (nv : Option (List (String × JSValue)))
    (h : InvE c) : InvE (resetCtrl c nv).1 :=
  InvE_of_stateMap (resetValuesInner_stateMap (clearStateCtrl c).1 nv)
    (InvE_clearState c h)

theorem InvE_clearMessagesCtrl (c : Ctrl) (fields : Option (List String))
    (h : InvE c) : InvE (clearMessagesCtrl c fields).1 :=
  InvE_foldl Prod.fst
    (fun (st : Ctrl × List Event) g =>
      let r := clearFieldMessages st.1 g
      (r.1, st.2 ++ r.2))
    (fun st g hst => InvE_clearFieldMessages st.1 g hst)
    (fields.getD (c.internalStateMap.map Prod.fst)) (c, []) h

theorem InvE_clearValidationMessagesCtrl (c : Ctrl)
    (fields : Option (List String)) (h : InvE c) :
    InvE (clearValidationMessagesCtrl c fields).1 :=
  InvE_foldl Prod.fst
    (fun (st : Ctrl × List Event) g =>
      let r := clearFieldValidationMessages st.1 g
      (r.1, st.2 ++ r.2))
    (fun st g hst => InvE_clearFieldValidationMessages st.1 g hst)
    (fields.getD (c.internalStateMap.map Prod.fst)) (c, []) h

theorem InvE_clearCustomMessagesCtrl (c : Ctrl)
    (fields : Option (List String)) (h : InvE c) :
    InvE (clearCustomMessagesCtrl c fields).1 :=
  InvE_foldl Prod.fst
    (fun (st : Ctrl × List Event) g =>
      let r := clearFieldCustomMessages st.1 g
      (r.1, st.2 ++ r.2))
    (fun st g hst => InvE_clearFieldCustomMessages st.1 g hst)
    (fields.getD (c.internalStateMap.map Prod.fst)) (c, []) h

theorem InvE_clearFieldValidation (c : Ctrl) (f : String) (h : InvE c) :
    InvE (clearFieldValidationCtrl c f).1 :=
  InvE_clearFieldValidationMessages _ f (InvE_of_stateMap rfl h)

theorem InvE_setFieldValidation (c : Ctrl) (f : String)
    (p : PartialFieldValidation) (h : InvE c) :
    InvE (setFieldValidationCtrl c f p).1 :=
  InvE_clearFieldValidationMessages _ f (InvE_of_stateMap rfl h)

theorem InvE_resetFieldValidation (c : Ctrl) (f : String)
    (fv : FieldValidation) (h : InvE c) :
    InvE (resetFieldValidationCtrl c f fv).1 :=
  InvE_clearFieldValidationMessages _ f (InvE_of_stateMap rfl h)

theorem InvE_clearValidation (c : Ctrl) (h : InvE c) :
    InvE (clearValidationCtrl c).1 :=
  InvE_clearValidationMessagesCtrl _ _ (InvE_of_stateMap rfl h)

theorem InvE_setValidation (c : Ctrl) (vs : List (String × FieldValidation))
    (h : InvE c) : InvE (setValidationCtrl c vs).1 :=
  InvE_clearValidationMessagesCtrl _ _ (InvE_of_stateMap rfl h)

theorem InvE_resetValidation (c : Ctrl) (vs : List (String × FieldValidation))
    (h : InvE c) : InvE (resetValidationCtrl c vs).1 :=
  InvE_clearValidationMessagesCtrl _ _ (InvE_of_stateMap rfl h)

theorem InvE_addFieldValidationRules (c : Ctrl) (f : String)
    (rules : List (Option Rule)) (h : InvE c) :
    InvE (addFieldValidationRulesCtrl c f rules) :=
  InvE_of_stateMap rfl h

theorem InvE_stepOp (c : Ctrl) (op : Op) (h : InvE c) : InvE (stepOp c op) := by
  cases op with
  | setValue f v o => exact InvE_setValue c f v o h
  | setValues nv o => exact InvE_setValuesCtrl c nv o h
  | clearValues o => exact InvE_clearValuesCtrl c o h
  | resetValues nv o => exact InvE_resetValues c nv o h
  | validateField f ev => exact InvE_vfc c f ev h
  | validate fields ev => exact InvE_validateCtrl c fields ev h
  | incrementChanged f byUser => exact InvE_incrementChanged c f byUser h
  | incrementBlurred f => exact InvE_incrementBlurred c f h
  | handleBlur f => exact InvE_handleBlur c f h
  | handleInput f v => exact InvE_handleInput c f v h
  | getFieldState f => exact InvE_getFieldState c f h
  | clearFieldState f => exact InvE_clearFieldState c f h
  | clearState => exact InvE_clearState c h
  | clear => exact InvE_clear c h
  | reset nv => exact InvE_reset c nv h
  | forceFieldError f b => exact InvE_forceFieldError c f b h
  | forceFieldWarning f b => exact InvE_forceFieldWarning c f b h
  | unforceFieldError f => exact InvE_unforceFieldError c f h
  | unforceFieldWarning f => exact InvE_unforceFieldWarning c f h
  | clearFieldMessages f => exact InvE_clearFieldMessages c f h
  | clearFieldValidationMessages f => exact InvE_clearFieldValidationMessages c f h
  | clearFieldCustomMessages f => exact InvE_clearFieldCustomMessages c f h
  | addFieldCustomMessages f msgs => exact InvE_addFieldCustomMessages c f msgs h
  | resetFieldCustomMessages f msgs => exact InvE_resetFieldCustomMessages c f msgs h
  | clearMessages fields => exact InvE_clearMessagesCtrl c fields h
  | clearValidationMessages fields => exact InvE_clearValidationMessagesCtrl c fields h
  | clearCustomMessages fields => exact InvE_clearCustomMessagesCtrl c fields h
  | addFieldValidationRules f rules => exact InvE_addFieldValidationRules c f rules h
  | clearFieldValidation f => exact InvE_clearFieldValidation c f h
  | setFieldValidation f p => exact InvE_setFieldValidation c f p h
  | resetFieldValidation f fv => exact InvE_resetFieldValidation c f fv h
  | clearValidation => exact InvE_clearValidation c h
  | setValidation vs => exact InvE_setValidation c vs h
  | resetValidation vs => exact InvE_resetValidation c vs h

theorem InvE_applyOps (c : Ctrl) (ops : List Op) (h : InvE c) :
    InvE (applyOps c ops) :=
  InvE_foldl (fun x => x) stepOp (fun st a hst => InvE_stepOp st a hst) ops c h

theorem InvE_mkCtrl (options : CtrlOptions)
    (validation : Option (List (String × FieldValidation)))
    (values : Option (List (String × JSValue))) :
    InvE (mkCtrl options validation values) := by
  have h0 : InvE (emptyCtrl options) := fun p hp => absurd hp (List.not_mem_nil p)
  unfold mkCtrl
  cases validation with
  | none =>
    simp only
    split
    · exact InvE_of_stateMap rfl h0
    · exact h0
  | some vs =>
    have h1 : InvE (setValidationCtrl (emptyCtrl options) vs).1 :=
      InvE_setValidation _ vs h0
    simp only
    split
    · exact InvE_of_stateMap rfl h1
    · exact h1

/-- Claim C10: after any sequence of public operations on a freshly
constructed controller, every observable field state satisfies
`0 ≤ touched ≤ changed` — `touched` is only ever incremented together with
`changed` (for user-attributed changes), both start at `0` in a fresh field
state, and the state-clearing operations reset both. -/
theorem claim_c10 (options : CtrlOptions)
    (validation : Option (List (String × FieldValidation)))
    (values : Option (List (String × JSValue)))
    (ops : List Op) (f : String) :
    0 ≤ (fieldStateOf (applyOps (mkCtrl options validation values) ops) f).touched ∧
    (fieldStateOf (applyOps (mkCtrl options validation values) ops) f).touched ≤
      (fieldStateOf (applyOps (mkCtrl options validation values) ops) f).changed := by
  refine ⟨Nat.zero_le _, ?_⟩
  have hinv : InvE (applyOps (mkCtrl options validation values) ops) :=
    InvE_applyOps _ ops (InvE_mkCtrl options validation values)
  unfold fieldStateOf
  exact stateOk_getD _ hinv f

end FormCtrlV
